import Mathlib

/-!
Verification development for the DaliVM Dalvik bytecode analyzer.

The Python sources are shallowly embedded: Python unbounded `int` becomes
`Int`, `bytes` becomes `List Nat` (each element < 256 in practice), Python
`float` becomes a symbolic `PyFloat` (exact rationals plus the IEEE special
values; IEEE rounding of finite results is not modelled, only the special
cases the claims are about), and heap objects/arrays become handles into an
explicit heap carried in the machine state.  Python bitwise idioms on masks
`2^k - 1` are written with `%`/`/` (`x & 0x3F = x % 64`, `x >> 4 = x / 16`
for the non-negative byte values involved), which agrees with the source for
every operand that can occur.  Exceptions are modelled by `Option`: a
handler that would raise returns `none`.
-/

namespace DaliVM

/-- Python float, modelled symbolically: finite values as exact rationals,
plus the IEEE specials produced by the sources (`float('inf')`,
`float('nan')`). -/
inductive PyFloat where
  | finite (q : ℚ)
  | inf
  | neginf
  | nan
deriving DecidableEq, Repr

/-- The payload of `types.RegisterValue` / heap cells: Python `None`, `int`,
`float`, `str` (as a list of code points), `DalvikObject` and `DalvikArray`
(as handles into the machine heap). -/
inductive Value where
  | none
  | intv (n : Int)
  | floatv (f : PyFloat)
  | strv (s : List Nat)
  | objv (h : Nat)
  | arrv (h : Nat)
deriving DecidableEq, Repr

/-- `types.DalvikArray`: element-type descriptor (the `type_idx` word used by
`new-array`), declared size, and the dense `data` buffer (`[0] * size`). -/
structure DArray where
  typeDesc : Nat
  size : Int
  data : List Value
deriving DecidableEq, Repr

/-- `types.Registers`: the linear register file.  `RegisterValue` is a plain
one-field box in the source, so a register directly holds a `Value`. -/
structure Regs where
  regs : List Value
deriving DecidableEq, Repr

/-- `Registers.__getitem__`: out-of-range access raises `IndexError`
(modelled as `none`). -/
def Regs.getReg (r : Regs) (idx : Nat) : Option Value := r.regs.get? idx

/-- `Registers.__setitem__`: extends the file with `RegisterValue(None)`
cells when `idx` is past the end, then stores. -/
def Regs.setReg (r : Regs) (idx : Nat) (v : Value) : Regs :=
  let base := if idx < r.regs.length then r.regs
              else r.regs ++ List.replicate (idx + 1 - r.regs.length) Value.none
  ⟨base.set idx v⟩

/-- `Registers.get_int`: 0 for an out-of-range index and for any register
whose value is not an `int`. -/
def Regs.get_int (r : Regs) (idx : Nat) : Int :=
  match r.regs.get? idx with
  | some (.intv n) => n
  | _ => 0

/-- Fresh register file of `count` registers, all `RegisterValue(None)`. -/
def mkRegs (count : Nat) : Regs := ⟨List.replicate count Value.none⟩

/-- Python single-index `bytes[i]`: negative indices count from the end,
out-of-range raises (`none`). -/
def pyIndex (bc : List Nat) (i : Int) : Option Nat :=
  if 0 ≤ i then bc.get? i.toNat
  else if (-i) ≤ (bc.length : Int) then bc.get? (bc.length - (-i).toNat)
  else Option.none

/-- Python slice `bytes[a:b]`: clamped, never raises, negative indices count
from the end. -/
def pySlice (bc : List Nat) (a b : Int) : List Nat :=
  let n : Int := bc.length
  let lo := if a < 0 then max 0 (n + a) else min a n
  let hi := if b < 0 then max 0 (n + b) else min b n
  (bc.drop lo.toNat).take (hi.toNat - lo.toNat)

/-- `int.from_bytes(bs, 'little')` (unsigned). -/
def leUnsigned : List Nat → Nat
  | [] => 0
  | b :: rest => b + 256 * leUnsigned rest

/-- `int.from_bytes(bs, 'little', signed=True)`: two's complement of the
actual byte length (an empty slice yields 0). -/
def leSigned (bs : List Nat) : Int :=
  let u := leUnsigned bs
  if 2 * u < 256 ^ bs.length then (u : Int) else (u : Int) - (256 ^ bs.length : Nat)

/-- `DalvikVM.read_u16`: unsigned little-endian 16-bit read via a slice. -/
def readU16 (bc : List Nat) (off : Int) : Nat := leUnsigned (pySlice bc off (off + 2))

/-- Per-method trace map: pc ↦ (disassembled instruction, length), as an
association list (`trace_map` dict in the source). -/
abbrev TraceMap := List (Nat × String × Nat)

/-- `trace_map.get(pc, ('', 0))[0]`. -/
def traceLookup (tm : TraceMap) (pc : Int) : String :=
  match tm.find? (fun e => (e.1 : Int) = pc) with
  | some e => e.2.1
  | Option.none => ""

/-- The interpreter state of one `DalvikVM`.  Hook *presence* flags mirror
`vm.hook`, `hasattr(vm, 'method_hooks')`, `vm.method_resolver` and
`vm.class_loader`; the hook *behaviour* is supplied separately by a
`HookEnv` (the imported mock modules are an input boundary of the core). -/
structure VMState where
  bytecode : List Nat
  pc : Int
  registers : Regs
  arrays : List DArray
  lastResult : Option Value
  finished : Bool
  traceMap : TraceMap
  hasUserHook : Bool
  hasMethodHooks : Bool
  hasResolver : Bool
  hasClassLoader : Bool
  silent : Bool
  warnCount : Nat
deriving DecidableEq, Repr

/-! ## Arithmetic opcode handlers (`opcodes/arithmetic.py`)

Handlers run with `pc` already advanced past the opcode byte (the dispatch
loops do `opcode = bytecode[pc]; pc += 1` before calling the handler). -/

/-- `_arith_23x`: `vAA = vBB op vCC`, destination masked with
`& 0xFFFFFFFF`, written here as `emod 2^32` (equal for every Python int). -/
def arith23x (op : Int → Int → Int) (s : VMState) : Option VMState := do
  let aa ← pyIndex s.bytecode s.pc
  let bb ← pyIndex s.bytecode (s.pc + 1)
  let cc ← pyIndex s.bytecode (s.pc + 2)
  let vb := s.registers.get_int bb
  let vc := s.registers.get_int cc
  pure { s with registers := s.registers.setReg aa (.intv (op vb vc % 4294967296)),
                pc := s.pc + 3 }

/-- `_arith_2addr`: `vA = vA op vB`; the result is shifted down by `2^32`
only when it exceeds `0x7FFFFFFF` (no masking). -/
def arith2addr (op : Int → Int → Int) (s : VMState) : Option VMState := do
  let byte1 ← pyIndex s.bytecode s.pc
  let a := byte1 % 16
  let b := byte1 / 16
  let result := op (s.registers.get_int a) (s.registers.get_int b)
  let adjusted := if result > 2147483647 then result - 4294967296 else result
  pure { s with registers := s.registers.setReg a (.intv adjusted), pc := s.pc + 1 }

/-- `_arith_lit16`: `vA = vB op #+CCCC` (signed 16-bit literal), stored
unreduced. -/
def arithLit16 (op : Int → Int → Int) (s : VMState) : Option VMState := do
  let byte1 ← pyIndex s.bytecode s.pc
  let a := byte1 % 16
  let b := byte1 / 16
  let lit := leSigned (pySlice s.bytecode (s.pc + 1) (s.pc + 3))
  pure { s with registers := s.registers.setReg a (.intv (op (s.registers.get_int b) lit)),
                pc := s.pc + 3 }

/-- `_arith_lit8`: `vAA = vBB op #+CC` (signed 8-bit literal), stored
unreduced. -/
def arithLit8 (op : Int → Int → Int) (s : VMState) : Option VMState := do
  let aa ← pyIndex s.bytecode s.pc
  let bb ← pyIndex s.bytecode (s.pc + 1)
  let cc := leSigned (pySlice s.bytecode (s.pc + 2) (s.pc + 3))
  pure { s with registers := s.registers.setReg aa (.intv (op (s.registers.get_int bb) cc)),
                pc := s.pc + 3 }

/-- `_arith_long_23x`: like 23x but unreduced and writes the wide-pair
continuation `RegisterValue(None)` to `vAA+1`. -/
def arithLong23x (op : Int → Int → Int) (s : VMState) : Option VMState := do
  let aa ← pyIndex s.bytecode s.pc
  let bb ← pyIndex s.bytecode (s.pc + 1)
  let cc ← pyIndex s.bytecode (s.pc + 2)
  let result := op (s.registers.get_int bb) (s.registers.get_int cc)
  pure { s with registers := ((s.registers.setReg aa (.intv result)).setReg (aa + 1) .none),
                pc := s.pc + 3 }

/-- `_arith_long_2addr`. -/
def arithLong2addr (op : Int → Int → Int) (s : VMState) : Option VMState := do
  let byte1 ← pyIndex s.bytecode s.pc
  let dst := byte1 % 16
  let src := byte1 / 16
  let result := op (s.registers.get_int dst) (s.registers.get_int src)
  pure { s with registers := ((s.registers.setReg dst (.intv result)).setReg (dst + 1) .none),
                pc := s.pc + 1 }

/-- Python `//` is floor division. -/
def opDiv (a b : Int) : Int := if b ≠ 0 then a.fdiv b else 0
/-- Python `%` is floor remainder. -/
def opRem (a b : Int) : Int := if b ≠ 0 then a.fmod b else 0

def execute_add_int : VMState → Option VMState := arith23x (fun a b => a + b)
def execute_sub_int : VMState → Option VMState := arith23x (fun a b => a - b)
def execute_mul_int : VMState → Option VMState := arith23x (fun a b => a * b)
def execute_div_int : VMState → Option VMState := arith23x opDiv
def execute_rem_int : VMState → Option VMState := arith23x opRem
def execute_add_int_2addr : VMState → Option VMState := arith2addr (fun a b => a + b)
def execute_div_int_2addr : VMState → Option VMState := arith2addr opDiv
def execute_rem_int_2addr : VMState → Option VMState := arith2addr opRem
def execute_div_int_lit16 : VMState → Option VMState := arithLit16 opDiv
def execute_rem_int_lit16 : VMState → Option VMState := arithLit16 opRem
def execute_div_int_lit8 : VMState → Option VMState := arithLit8 opDiv
def execute_rem_int_lit8 : VMState → Option VMState := arithLit8 opRem
/-- Final module-level binding of `execute_div_long` (the long 23x helper,
which overrides the earlier alias to `execute_div_int`). -/
def execute_div_long : VMState → Option VMState := arithLong23x opDiv
def execute_rem_long : VMState → Option VMState := arithLong23x opRem
def execute_div_long_2addr : VMState → Option VMState := arithLong2addr opDiv
def execute_rem_long_2addr : VMState → Option VMState := arithLong2addr opRem

/-! ### Float/double arithmetic -/

/-- `b != 0` on a Python float: only `0.0` compares equal to 0. -/
def PyFloat.isZero : PyFloat → Bool
  | .finite q => q = 0
  | _ => false

/-- Python float division for the non-zero-divisor path (finite results
exact instead of IEEE-rounded). -/
def pyFloatDiv : PyFloat → PyFloat → PyFloat
  | .nan, _ => .nan
  | _, .nan => .nan
  | .inf, .inf => .nan
  | .inf, .neginf => .nan
  | .neginf, .inf => .nan
  | .neginf, .neginf => .nan
  | .inf, .finite q => if q < 0 then .neginf else .inf
  | .neginf, .finite q => if q < 0 then .inf else .neginf
  | .finite _, .inf => .finite 0
  | .finite _, .neginf => .finite 0
  | .finite q1, .finite q2 => .finite (q1 / q2)

/-- Python float `%` for the non-zero-divisor path (floor-based). -/
def pyFloatMod : PyFloat → PyFloat → PyFloat
  | .nan, _ => .nan
  | _, .nan => .nan
  | .inf, _ => .nan
  | .neginf, _ => .nan
  | .finite q1, .inf => if 0 ≤ q1 then .finite q1 else .inf
  | .finite q1, .neginf => if q1 ≤ 0 then .finite q1 else .neginf
  | .finite q1, .finite q2 => .finite (q1 - q2 * ⌊q1 / q2⌋)

/-- `a / b if b != 0 else float('inf')` (`execute_div_float` lambda). -/
def opFDiv (a b : PyFloat) : PyFloat := if b.isZero then .inf else pyFloatDiv a b
/-- `a % b if b != 0 else float('nan')` (`execute_rem_float` lambda). -/
def opFRem (a b : PyFloat) : PyFloat := if b.isZero then .nan else pyFloatMod a b

/-- Python `float(x)` on the values the float handlers feed it: ints and
floats convert, anything else raises (strings holding numerals are not
modelled; they do not reach these handlers). -/
def pyFloatOf : Value → Option PyFloat
  | .intv n => some (.finite n)
  | .floatv f => some f
  | _ => Option.none

/-- `_arith_float_23x`: reads both source registers' raw values, converts
with `float(...)`, applies the op. -/
def arithFloat23x (op : PyFloat → PyFloat → PyFloat) (s : VMState) : Option VMState := do
  let aa ← pyIndex s.bytecode s.pc
  let bb ← pyIndex s.bytecode (s.pc + 1)
  let cc ← pyIndex s.bytecode (s.pc + 2)
  let rb ← s.registers.getReg bb
  let rc ← s.registers.getReg cc
  let vb ← pyFloatOf rb
  let vc ← pyFloatOf rc
  pure { s with registers := s.registers.setReg aa (.floatv (op vb vc)), pc := s.pc + 3 }

/-- `_arith_float_2addr`. -/
def arithFloat2addr (op : PyFloat → PyFloat → PyFloat) (s : VMState) : Option VMState := do
  let byte1 ← pyIndex s.bytecode s.pc
  let dst := byte1 % 16
  let src := byte1 / 16
  let ra ← s.registers.getReg dst
  let rb ← s.registers.getReg src
  let va ← pyFloatOf ra
  let vb ← pyFloatOf rb
  pure { s with registers := s.registers.setReg dst (.floatv (op va vb)), pc := s.pc + 1 }

/-- `_arith_double_23x`: like float 23x plus the wide continuation slot. -/
def arithDouble23x (op : PyFloat → PyFloat → PyFloat) (s : VMState) : Option VMState := do
  let aa ← pyIndex s.bytecode s.pc
  let bb ← pyIndex s.bytecode (s.pc + 1)
  let cc ← pyIndex s.bytecode (s.pc + 2)
  let rb ← s.registers.getReg bb
  let rc ← s.registers.getReg cc
  let vb ← pyFloatOf rb
  let vc ← pyFloatOf rc
  pure { s with registers := ((s.registers.setReg aa (.floatv (op vb vc))).setReg (aa + 1) .none),
                pc := s.pc + 3 }

/-- `_arith_double_2addr`. -/
def arithDouble2addr (op : PyFloat → PyFloat → PyFloat) (s : VMState) : Option VMState := do
  let byte1 ← pyIndex s.bytecode s.pc
  let dst := byte1 % 16
  let src := byte1 / 16
  let ra ← s.registers.getReg dst
  let rb ← s.registers.getReg src
  let va ← pyFloatOf ra
  let vb ← pyFloatOf rb
  pure { s with registers := ((s.registers.setReg dst (.floatv (op va vb))).setReg (dst + 1) .none),
                pc := s.pc + 1 }

def execute_div_float : VMState → Option VMState := arithFloat23x opFDiv
def execute_rem_float : VMState → Option VMState := arithFloat23x opFRem
def execute_div_float_2addr : VMState → Option VMState := arithFloat2addr opFDiv
def execute_rem_float_2addr : VMState → Option VMState := arithFloat2addr opFRem
def execute_div_double : VMState → Option VMState := arithDouble23x opFDiv
def execute_rem_double : VMState → Option VMState := arithDouble23x opFRem
def execute_div_double_2addr : VMState → Option VMState := arithDouble2addr opFDiv
def execute_rem_double_2addr : VMState → Option VMState := arithDouble2addr opFRem

/-! ## Array opcode handlers (`opcodes/array.py`) -/

/-- `execute_new_array`: allocates `DalvikArray(type_idx, size)` with
`data = [0] * size` (empty when `size` is negative) and stores a fresh
handle in the destination register. -/
def execute_new_array (s : VMState) : Option VMState := do
  let byte1 ← pyIndex s.bytecode s.pc
  let regDest := byte1 % 16
  let regSize := byte1 / 16
  let typeIdx := readU16 s.bytecode (s.pc + 1)
  let size := s.registers.get_int regSize
  let arr : DArray := ⟨typeIdx, size, List.replicate size.toNat (.intv 0)⟩
  pure { s with arrays := s.arrays ++ [arr],
                registers := s.registers.setReg regDest (.arrv s.arrays.length),
                pc := s.pc + 3 }

/-- The element loop of `execute_fill_array_data`
(`for i in range(min(size, arr.size))`): widths 1 and 2 decode unsigned
little-endian, width 4 decodes signed, every other width leaves the element
untouched.  Width 1 single-indexes the bytecode and so can raise. -/
def fillElems (bc : List Nat) (dataStart : Int) (width : Nat) :
    Nat → Nat → List Value → Option (List Value)
  | _, 0, data => some data
  | i, k + 1, data => do
    let data' ←
      if width = 1 then do
        let b ← pyIndex bc (dataStart + i)
        pure (data.set i (Value.intv b))
      else if width = 2 then
        pure (data.set i (Value.intv (leUnsigned
          (pySlice bc (dataStart + 2 * i) (dataStart + 2 * i + 2)))))
      else if width = 4 then
        pure (data.set i (Value.intv (leSigned
          (pySlice bc (dataStart + 4 * i) (dataStart + 4 * i + 4)))))
      else pure data
    fillElems bc dataStart width (i + 1) k data'

/-- `min(size, arr.size)` as an element count (`range` of a negative bound
is empty). -/
def fillCount (size : Nat) (arrSize : Int) : Nat :=
  if (size : Int) ≤ arrSize then size else arrSize.toNat

/-- `execute_fill_array_data` (31t): locates the `0x0300` payload at
`instr_start + offset*2` and copies `min(size, arr.size)` elements into the
array buffer. -/
def execute_fill_array_data (s : VMState) : Option VMState := do
  let reg ← pyIndex s.bytecode s.pc
  let offset := leSigned (pySlice s.bytecode (s.pc + 1) (s.pc + 5))
  let rv ← s.registers.getReg reg
  match rv with
  | .arrv h =>
    match s.arrays.get? h with
    | some arr =>
      let instrStart := s.pc - 1
      let payloadAddr := instrStart + offset * 2
      if payloadAddr + 8 > (s.bytecode.length : Int) then
        pure { s with pc := s.pc + 5 }
      else
        let ident := readU16 s.bytecode payloadAddr
        if ident ≠ 0x0300 then pure { s with pc := s.pc + 5 }
        else do
          let elementWidth := readU16 s.bytecode (payloadAddr + 2)
          let size := leUnsigned (pySlice s.bytecode (payloadAddr + 4) (payloadAddr + 8))
          let dataStart := payloadAddr + 8
          let data' ← fillElems s.bytecode dataStart elementWidth 0
            (fillCount size arr.size) arr.data
          pure { s with arrays := s.arrays.set h { arr with data := data' },
                        pc := s.pc + 5 }
    | Option.none => pure { s with pc := s.pc + 5 }
  | _ => pure { s with pc := s.pc + 5 }

/-- `execute_aget` (shared by all `aget` variants): out-of-bounds indices on
a real array warn and load 0; a non-array source register also loads 0. -/
def execute_aget (s : VMState) : Option VMState := do
  let aa ← pyIndex s.bytecode s.pc
  let bb ← pyIndex s.bytecode (s.pc + 1)
  let cc ← pyIndex s.bytecode (s.pc + 2)
  let rb ← s.registers.getReg bb
  let idx := s.registers.get_int cc
  match rb with
  | .arrv h =>
    match s.arrays.get? h with
    | some arr =>
      if 0 ≤ idx ∧ idx < arr.size then do
        let v ← arr.data.get? idx.toNat
        pure { s with registers := s.registers.setReg aa v, pc := s.pc + 3 }
      else
        pure { s with registers := s.registers.setReg aa (.intv 0),
                      warnCount := s.warnCount + 1, pc := s.pc + 3 }
    | Option.none =>
      pure { s with registers := s.registers.setReg aa (.intv 0), pc := s.pc + 3 }
  | _ => pure { s with registers := s.registers.setReg aa (.intv 0), pc := s.pc + 3 }

def execute_aget_wide : VMState → Option VMState := execute_aget
def execute_aget_object : VMState → Option VMState := execute_aget

/-- `execute_aput` (shared by all `aput` variants): stores the *integer*
reading of the value register (`get_int`, so 0 for any non-int value);
out-of-bounds indices warn and write nothing. -/
def execute_aput (s : VMState) : Option VMState := do
  let aa ← pyIndex s.bytecode s.pc
  let bb ← pyIndex s.bytecode (s.pc + 1)
  let cc ← pyIndex s.bytecode (s.pc + 2)
  let val := s.registers.get_int aa
  let rb ← s.registers.getReg bb
  let idx := s.registers.get_int cc
  match rb with
  | .arrv h =>
    match s.arrays.get? h with
    | some arr =>
      if 0 ≤ idx ∧ idx < arr.size then
        pure { s with arrays := s.arrays.set h
                        { arr with data := arr.data.set idx.toNat (.intv val) },
                      pc := s.pc + 3 }
      else
        pure { s with warnCount := s.warnCount + 1, pc := s.pc + 3 }
    | Option.none => pure { s with pc := s.pc + 3 }
  | _ => pure { s with pc := s.pc + 3 }

def execute_aput_wide : VMState → Option VMState := execute_aput
def execute_aput_object : VMState → Option VMState := execute_aput
def execute_aput_boolean : VMState → Option VMState := execute_aput
def execute_aput_byte : VMState → Option VMState := execute_aput
def execute_aput_char : VMState → Option VMState := execute_aput
def execute_aput_short : VMState → Option VMState := execute_aput

/-- The register-collection loop of `execute_filled_new_array`: for each
argument register in order, a readable register holding a non-`None` value
overwrites `data[i]`; `IndexError` is swallowed (`except: pass`). -/
def filledData (regs : Regs) (rl : List Nat) (size : Nat) : List Value :=
  (rl.enum).foldl (fun d p =>
      match regs.getReg p.2 with
      | some v => if v ≠ Value.none then d.set p.1 v else d
      | Option.none => d)
    (List.replicate size (Value.intv 0))

/-- `execute_filled_new_array` (35c): builds a fresh array of size
`arg_count` from explicit register nibbles and leaves it in the last-result
slot. -/
def execute_filled_new_array (s : VMState) : Option VMState := do
  let byte1 ← pyIndex s.bytecode s.pc
  let argCount := (byte1 / 16) % 16
  let regG := byte1 % 16
  let typeIdx := readU16 s.bytecode (s.pc + 1)
  let byteDC ← pyIndex s.bytecode (s.pc + 3)
  let byteFE ← pyIndex s.bytecode (s.pc + 4)
  let regC := byteDC % 16
  let regD := (byteDC / 16) % 16
  let regE := byteFE % 16
  let regF := (byteFE / 16) % 16
  let regList := [regC, regD, regE, regF, regG].take argCount
  let arr : DArray := ⟨typeIdx, argCount, filledData s.registers regList argCount⟩
  pure { s with arrays := s.arrays ++ [arr],
                lastResult := some (.arrv s.arrays.length),
                pc := s.pc + 5 }

/-! ## Control/return handlers used by the execution loops -/

/-- `execute_goto` (10t): `pc = instr_start + offset*2` with a signed 8-bit
offset read from the byte after the opcode. -/
def execute_goto (s : VMState) : Option VMState := do
  let offset := leSigned (pySlice s.bytecode s.pc (s.pc + 1))
  pure { s with pc := (s.pc - 1) + offset * 2 }

/-- `execute_return_void`: sets the finished flag and a null last result. -/
def execute_return_void (s : VMState) : Option VMState :=
  pure { s with finished := true, lastResult := some Value.none }

/-- `execute_return` (11x): places the returned register in the last-result
slot. -/
def execute_return (s : VMState) : Option VMState := do
  let reg ← pyIndex s.bytecode s.pc
  let rv ← s.registers.getReg reg
  pure { s with lastResult := some rv, finished := true, pc := s.pc + 1 }

/-! ## MUTF-8 (`dex_parser._decode_mutf8`)

Strings are sequences of Unicode code points (`List Nat`); bytes are
`List Nat`.  Bit expressions are rendered arithmetically:
`b & 0x1F = b % 32`, `b & 0x3F = b % 64`, `b & 0x0F = b % 16`,
`b & 0x07 = b % 8`, and `(x << k) | y = x * 2^k + y` whenever `y < 2^k`,
which holds for every masked operand below. -/

/-- `_decode_mutf8`, byte for byte, indexed by fuel so that the recursion
is structural (each loop iteration consumes at least one byte, so
`data.length` fuel always suffices; `decodeMutf8` below instantiates it
so).  A zero byte stops decoding; bytes below 0xC0 (ASCII and stray
continuation bytes) pass through; a truncated multi-byte sequence at the
end of the input emits its lead byte raw and continues on the rest. -/
def decodeMutf8Fuel : Nat → List Nat → List Nat
  | 0, _ => []
  | fuel + 1, l =>
    match l with
    | [] => []
    | b1 :: rest =>
      if b1 = 0 then []
      else if b1 < 0x80 then b1 :: decodeMutf8Fuel fuel rest
      else if b1 < 0xC0 then b1 :: decodeMutf8Fuel fuel rest
      else if b1 < 0xE0 then
        match rest with
        | [] => b1 :: decodeMutf8Fuel fuel []
        | b2 :: rest2 =>
          if b1 = 0xC0 ∧ b2 = 0x80 then 0 :: decodeMutf8Fuel fuel rest2
          else ((b1 % 32) * 64 + b2 % 64) :: decodeMutf8Fuel fuel rest2
      else if b1 < 0xF0 then
        match rest with
        | b2 :: b3 :: rest3 =>
          ((b1 % 16) * 4096 + (b2 % 64) * 64 + b3 % 64) :: decodeMutf8Fuel fuel rest3
        | _ => b1 :: decodeMutf8Fuel fuel rest
      else
        match rest with
        | b2 :: b3 :: b4 :: rest4 =>
          ((b1 % 8) * 262144 + (b2 % 64) * 4096 + (b3 % 64) * 64 + b4 % 64) ::
            decodeMutf8Fuel fuel rest4
        | _ => b1 :: decodeMutf8Fuel fuel rest

/-- `_decode_mutf8(data)`. -/
def decodeMutf8 (l : List Nat) : List Nat := decodeMutf8Fuel l.length l

/-- MUTF-8 encoding of one BMP code point, following the claim / spec §4.A:
U+0000 as `C0 80`, ASCII as one byte, then the standard 2- and 3-byte UTF-8
shapes. -/
def mutf8EncodeBMP (c : Nat) : List Nat :=
  if c = 0 then [0xC0, 0x80]
  else if c < 0x80 then [c]
  else if c < 0x800 then [0xC0 + c / 64, 0x80 + c % 64]
  else [0xE0 + c / 4096, 0x80 + (c / 64) % 64, 0x80 + c % 64]

/-- MUTF-8 encoding of one code point: supplementary code points become a
surrogate pair, each half encoded as a 3-byte BMP sequence. -/
def mutf8EncodeChar (c : Nat) : List Nat :=
  if c < 0x10000 then mutf8EncodeBMP c
  else mutf8EncodeBMP (0xD800 + (c - 0x10000) / 1024) ++
       mutf8EncodeBMP (0xDC00 + (c - 0x10000) % 1024)

/-- MUTF-8 encoding of a string of code points. -/
def mutf8Encode (s : List Nat) : List Nat := (s.map mutf8EncodeChar).flatten

/-! ## String utilities shared by the slicer and the class loader

These model the exact Python string operations used
(`str.split()`, `str.strip(',')`, `str.rstrip(',')`, `startswith`,
substring membership, `str.isdigit`). -/

/-- Python `str.isspace` characters that can occur in instruction text. -/
def isPySpace (c : Char) : Bool :=
  c = ' ' ∨ c = '\t' ∨ c = '\n' ∨ c = '\r' ∨ c = '\x0b' ∨ c = '\x0c'

/-- Worker for `str.split()` (split on whitespace runs, no empty parts). -/
def pySplitAux : List Char → List Char → List (List Char)
  | [], cur => if cur.isEmpty then [] else [cur.reverse]
  | c :: cs, cur =>
    if isPySpace c then
      if cur.isEmpty then pySplitAux cs []
      else cur.reverse :: pySplitAux cs []
    else pySplitAux cs (c :: cur)

/-- Python `str.split()` with no arguments. -/
def pySplit (s : String) : List String :=
  (pySplitAux s.toList []).map (fun l => ⟨l⟩)

/-- Python `s.strip(',')`. -/
def stripCommas (s : String) : String :=
  ⟨((s.toList.dropWhile (· = ',')).reverse.dropWhile (· = ',')).reverse⟩

/-- Python `s.rstrip(',')`. -/
def rstripCommas (s : String) : String :=
  ⟨(s.toList.reverse.dropWhile (· = ',')).reverse⟩

/-- `hay.startswith needle` on character lists. -/
def listStartsWith : List Char → List Char → Bool
  | _, [] => true
  | [], _ :: _ => false
  | a :: as, b :: bs => a = b ∧ listStartsWith as bs

/-- Python `s.startswith(p)`. -/
def strStarts (s p : String) : Bool := listStartsWith s.toList p.toList

/-- Python `needle in hay` (substring membership). -/
def listHasInfix : List Char → List Char → Bool
  | hay, needle =>
    match hay with
    | [] => needle.isEmpty
    | _ :: t => listStartsWith hay needle ∨ listHasInfix t needle

/-- Python `needle in hay` on strings. -/
def strHas (hay needle : String) : Bool := listHasInfix hay.toList needle.toList

/-- Numeric value of a digit string. -/
def digitsToNat (l : List Char) : Nat :=
  l.foldl (fun acc c => acc * 10 + (c.toNat - 48)) 0

/-- `part.startswith('v') and part[1:].isdigit()`, yielding the register
number when it holds. -/
def vRegNum (s : String) : Option Nat :=
  match s.toList with
  | 'v' :: rest =>
    if rest ≠ [] ∧ rest.all Char.isDigit then some (digitsToNat rest) else Option.none
  | _ => Option.none

/-! ## The slicer (`forward_lookup.build_register_dependencies`) -/

/-- Register tokens collected from an invoke's operand list
(`parts[1:]` / `fwd_parts[2:]`): strip commas, collect `vN` tokens, stop at
the first token starting with `L` or `[`. -/
def invokeArgRegs : List String → List Nat
  | [] => []
  | p :: ps =>
    let q := stripCommas p
    match vRegNum q with
    | some r => r :: invokeArgRegs ps
    | Option.none =>
      if strStarts q "L" ∨ strStarts q "[" then [] else invokeArgRegs ps

/-- The backward search of the `move-result` branch: the nearest earlier PC
whose instruction text contains `invoke`. -/
def prevInvoke (sortedPcs : List Nat) (traceOf : Nat → String) (pc : Nat) : Option Nat :=
  ((sortedPcs.filter (· < pc)).reverse).find? (fun p => strHas (traceOf p) "invoke")

/-- The forward search of the `new-array` branch: the first later PC whose
instruction contains `fill-array-data` and whose first operand is `v<w>`. -/
def fwdFillArray (sortedPcs : List Nat) (traceOf : Nat → String) (pc w : Nat) : Option Nat :=
  (sortedPcs.filter (fun p => pc < p)).find? (fun p =>
    let instr := traceOf p
    strHas instr "fill-array-data" &&
    (match pySplit instr with
     | _ :: p1 :: _ => stripCommas p1 == "v" ++ toString w
     | _ => false))

/-- The forward search of the `new-instance` branch: the first later PC whose
instruction contains both `invoke-direct` and `<init>` and whose first
argument is `v<w>`. -/
def fwdInitInvoke (sortedPcs : List Nat) (traceOf : Nat → String) (pc w : Nat) : Option Nat :=
  (sortedPcs.filter (fun p => pc < p)).find? (fun p =>
    let instr := traceOf p
    strHas instr "invoke-direct" && strHas instr "<init>" &&
    (match pySplit instr with
     | _ :: p1 :: _ => stripCommas p1 == "v" ++ toString w
     | _ => false))

/-- One instruction's classification: the register it writes, the registers
it reads, and the extra PCs the source adds to `dependency_pcs` before the
needed-register check (the `move-result` backward invoke and the two
forward lookups). -/
structure ClassifyOut where
  written : Option Nat
  reads : List Nat
  extras : List Nat
deriving DecidableEq, Repr

/-- The `const` branch: writes the destination only. -/
def classifyConst (parts : List String) : ClassifyOut :=
  match parts with
  | _ :: p1 :: _ => ⟨vRegNum (stripCommas p1), [], []⟩
  | _ => ⟨Option.none, [], []⟩

/-- The `move` branch: destination and one source. -/
def classifyMove (parts : List String) : ClassifyOut :=
  match parts with
  | _ :: p1 :: p2 :: _ =>
    ⟨vRegNum (stripCommas p1), (vRegNum (stripCommas p2)).toList, []⟩
  | _ => ⟨Option.none, [], []⟩

/-- The `move-result` branch: destination, plus the nearest preceding
invoke (added to the output unconditionally) and that invoke's argument
registers as reads. -/
def classifyMoveResult (sorted : List Nat) (traceOf : Nat → String) (pc : Nat)
    (parts : List String) : ClassifyOut :=
  match parts with
  | _ :: p1 :: _ =>
    match vRegNum (stripCommas p1) with
    | some w =>
      match prevInvoke sorted traceOf pc with
      | some ppc => ⟨some w, invokeArgRegs ((pySplit (traceOf ppc)).drop 1), [ppc]⟩
      | Option.none => ⟨some w, [], []⟩
    | Option.none => ⟨Option.none, [], []⟩
  | _ => ⟨Option.none, [], []⟩

/-- The `aget` branch: destination plus array and index registers. -/
def classifyAget (parts : List String) : ClassifyOut :=
  match parts with
  | _ :: p1 :: p2 :: p3 :: _ =>
    ⟨vRegNum (stripCommas p1),
     (vRegNum (stripCommas p2)).toList ++ (vRegNum (stripCommas p3)).toList, []⟩
  | _ => ⟨Option.none, [], []⟩

/-- The `new-array` branch: destination and size register, plus the forward
`fill-array-data` lookup (added unconditionally). -/
def classifyNewArray (sorted : List Nat) (traceOf : Nat → String) (pc : Nat)
    (parts : List String) : ClassifyOut :=
  match parts with
  | _ :: p1 :: p2 :: _ =>
    let w? := vRegNum (stripCommas p1)
    let extras := match w? with
      | some w => (fwdFillArray sorted traceOf pc w).toList
      | Option.none => []
    ⟨w?, (vRegNum (stripCommas p2)).toList, extras⟩
  | _ => ⟨Option.none, [], []⟩

/-- The `new-instance` branch: destination, plus the forward `invoke-direct
<init>` lookup (added unconditionally) whose constructor arguments become
reads. -/
def classifyNewInstance (sorted : List Nat) (traceOf : Nat → String) (pc : Nat)
    (parts : List String) : ClassifyOut :=
  match parts with
  | _ :: p1 :: _ =>
    match vRegNum (stripCommas p1) with
    | some w =>
      match fwdInitInvoke sorted traceOf pc w with
      | some fpc => ⟨some w, invokeArgRegs ((pySplit (traceOf fpc)).drop 2), [fpc]⟩
      | Option.none => ⟨some w, [], []⟩
    | Option.none => ⟨Option.none, [], []⟩
  | _ => ⟨Option.none, [], []⟩

/-- The `check-cast` branch: destination and source are the same register. -/
def classifyCheckCast (parts : List String) : ClassifyOut :=
  match parts with
  | _ :: p1 :: _ =>
    match vRegNum (stripCommas p1) with
    | some r => ⟨some r, [r], []⟩
    | Option.none => ⟨Option.none, [], []⟩
  | _ => ⟨Option.none, [], []⟩

/-- The binop `/2addr` sub-branch: `vA = vA op vB` (the two register ifs
are independent in the source). -/
def classifyBinop2addr (parts : List String) : ClassifyOut :=
  match parts with
  | _ :: p1 :: p2 :: _ =>
    match vRegNum (stripCommas p1) with
    | some a => ⟨some a, a :: (vRegNum (stripCommas p2)).toList, []⟩
    | Option.none => ⟨Option.none, (vRegNum (stripCommas p2)).toList, []⟩
  | _ => ⟨Option.none, [], []⟩

/-- The three-register binop sub-branch: `vA = vB op vC`. -/
def classifyBinop3 (parts : List String) : ClassifyOut :=
  match parts with
  | _ :: p1 :: p2 :: p3 :: _ =>
    ⟨vRegNum (stripCommas p1),
     (vRegNum (stripCommas p2)).toList ++ (vRegNum (stripCommas p3)).toList, []⟩
  | _ => ⟨Option.none, [], []⟩

/-- The second half of the opcode classification `elif` chain of
`build_register_dependencies` (from the `new-array` branch on). -/
def classifyOpTail (sortedPcs : List Nat) (traceOf : Nat → String) (pc : Nat)
    (opcode : String) (parts : List String) : ClassifyOut :=
  if opcode = "new-array" then classifyNewArray sortedPcs traceOf pc parts
  else if opcode = "new-instance" then classifyNewInstance sortedPcs traceOf pc parts
  else if opcode = "check-cast" then classifyCheckCast parts
  else if strStarts opcode "add-" ∨ strStarts opcode "sub-" ∨ strStarts opcode "mul-" ∨
          strStarts opcode "div-" ∨ strStarts opcode "rem-" ∨ strStarts opcode "and-" ∨
          strStarts opcode "or-" ∨ strStarts opcode "xor-" then
    if strHas opcode "/2addr" then classifyBinop2addr parts
    else if strHas opcode "/lit" then classifyMove parts
    else classifyBinop3 parts
  else if strStarts opcode "int-to-" ∨ strStarts opcode "long-to-" ∨
          strStarts opcode "float-to-" ∨ strStarts opcode "double-to-" then
    classifyMove parts
  else ⟨Option.none, [], []⟩

/-- The first half of the opcode classification `elif` chain, branch for
branch (the `sget` branch is `classifyConst`-shaped, the `iget`, `/lit`
and conversion branches are `classifyMove`-shaped). -/
def classifyOp (sortedPcs : List Nat) (traceOf : Nat → String) (pc : Nat)
    (opcode : String) (parts : List String) : ClassifyOut :=
  if strStarts opcode "const" then classifyConst parts
  else if opcode = "move" ∨ strStarts opcode "move/" then classifyMove parts
  else if opcode = "move-result" ∨ opcode = "move-result-object" ∨
          opcode = "move-result-wide" then
    classifyMoveResult sortedPcs traceOf pc parts
  else if strStarts opcode "sget" then classifyConst parts
  else if strStarts opcode "iget" then classifyMove parts
  else if strStarts opcode "aget" then classifyAget parts
  else classifyOpTail sortedPcs traceOf pc opcode parts

/-- The `if not parts: continue` guard and `opcode = parts[0]` binding
around the `elif` chain. -/
def classifyParts (sortedPcs : List Nat) (traceOf : Nat → String) (pc : Nat)
    (parts : List String) : ClassifyOut :=
  match parts with
  | [] => ⟨Option.none, [], []⟩
  | opcode :: rest => classifyOp sortedPcs traceOf pc opcode (opcode :: rest)

/-- The opcode dispatch applied to the split instruction text. -/
def classify (sortedPcs : List Nat) (traceOf : Nat → String) (pc : Nat)
    (instr : String) : ClassifyOut :=
  classifyParts sortedPcs traceOf pc (pySplit instr)

/-- The fold state of the backward walk: the needed registers and the
accumulated dependency PCs. -/
structure SliceState where
  needed : Finset Nat
  deps : Finset Nat
deriving DecidableEq

/-- One iteration of `for pc in reversed(sorted_pcs)`: the extras join the
output unconditionally; the PC itself only when it writes a needed
register, in which case that register is replaced by the instruction's
reads. -/
def processPC (sortedPcs : List Nat) (traceOf : Nat → String)
    (st : SliceState) (pc : Nat) : SliceState :=
  let instr := traceOf pc
  if (pySplit instr).isEmpty then st
  else
    let c := classify sortedPcs traceOf pc instr
    let deps1 := st.deps ∪ c.extras.toFinset
    match c.written with
    | some w =>
      if w ∈ st.needed then ⟨(st.needed.erase w) ∪ c.reads.toFinset, insert pc deps1⟩
      else ⟨st.needed, deps1⟩
    | Option.none => ⟨st.needed, deps1⟩

/-- Ascending insertion sort (`sorted`). -/
def insertAsc (x : Nat) : List Nat → List Nat
  | [] => [x]
  | y :: ys => if x ≤ y then x :: y :: ys else y :: insertAsc x ys

def sortAsc (l : List Nat) : List Nat := l.foldr insertAsc []

/-- `trace_map[pc][0]`, with the dict represented as an association list
(first match wins; keys are unique in the source's dict). -/
def traceOfMap (tm : TraceMap) : Nat → String := fun pc =>
  match tm.find? (fun e => e.1 = pc) with
  | some e => e.2.1
  | Option.none => ""

/-- `build_register_dependencies(trace_map, target_pc, arg_regs)`. -/
def build_register_dependencies (tm : TraceMap) (targetPc : Nat)
    (argRegs : List Nat) : Finset Nat :=
  let sortedPcs := sortAsc ((tm.map Prod.fst).filter (· < targetPc))
  if sortedPcs.isEmpty then ∅
  else
    ((sortedPcs.reverse).foldl (processPC sortedPcs (traceOfMap tm))
      ⟨argRegs.toFinset, ∅⟩).deps

/-- The sorted PC list the slicer walks (`sorted_pcs`). -/
def sliceSortedPcs (tm : TraceMap) (targetPc : Nat) : List Nat :=
  sortAsc ((tm.map Prod.fst).filter (· < targetPc))

/-- The fold state just before the backward walk first reaches `pc`:
the prefix of the descending PC list strictly before `pc`'s first
occurrence, folded from the initial state. -/
def sliceStateAt (tm : TraceMap) (targetPc : Nat) (argRegs : List Nat) (pc : Nat) :
    SliceState :=
  let sorted := sliceSortedPcs tm targetPc
  ((sorted.reverse.takeWhile (fun x => x ≠ pc)).foldl
    (processPC sorted (traceOfMap tm)) ⟨argRegs.toFinset, ∅⟩)

/-- The descending PC list strictly after `pc`'s first occurrence — the PCs
the backward walk still has to visit after processing `pc`. -/
def afterInReverse (sorted : List Nat) (pc : Nat) : List Nat :=
  ((sorted.reverse).dropWhile (fun x => x ≠ pc)).tail

/-- The defining PC of register `r` for the instruction at `pc`: the first
PC the backward walk meets after `pc` whose instruction writes `r` (the
nearest earlier writer). -/
def lastWriterBefore (sorted : List Nat) (traceOf : Nat → String) (r pc : Nat) :
    Option Nat :=
  (afterInReverse sorted pc).find?
    (fun p => (classify sorted traceOf p (traceOf p)).written = some r)

/-! ## Class loader and invoke dispatch
(`class_loader.py`, `opcodes/invoke.py`, `memory.py`)

The hook *tables* (`android_mocks.get_android_virtual_hook` /
`get_android_static_hook`, the user hook objects, and the built-in
emulation functions `_builtin_virtual_hooks` / `_builtin_static_hooks`)
are substring-keyed catalogues of framework stand-ins.  They are an input
boundary for the dispatch logic under analysis, so they appear here as a
`HookEnv` of abstract functions; the dispatch chains themselves — the
subject of the claims — are embedded branch for branch.  Method lookup
walks the parsed method list (`dx.get_methods()` order). -/

/-- The `"VOID_HOOK_HANDLED"` sentinel string returned by the
`System.arraycopy` built-in hook. -/
def voidHookSentinel : Value := Value.strv ("VOID_HOOK_HANDLED".toList.map Char.toNat)

structure HookEnv where
  androidVirtualHook : String → Option (List Value → Option Value)
  androidStaticHook : String → Option (List Value → Option Value)
  userVirtualHook : String → Option (List Value → Option Value)
  userStaticHook : Nat → List Value → Option Value
  builtinVirtual : List Value → String → Option Value
  builtinStatic : List Value → String → Option Value

/-- A hook environment in which no table matches — the behaviour of the real
tables on any trace string containing none of their catalogued framework
substrings. -/
def noHooks : HookEnv :=
  ⟨fun _ => Option.none, fun _ => Option.none, fun _ => Option.none,
   fun _ _ => Option.none, fun _ _ => Option.none, fun _ _ => Option.none⟩

/-- Which dispatch stage of an invoke handler resolved the call. -/
inductive Stage where
  | user
  | framework
  | builtin
  | classLoader
  | nullResult
deriving DecidableEq, Repr

/-- Ghost instrumentation recording what the embedded code did, used to
state ordering properties.  It changes no computed value. -/
inductive Event where
  | clinitStart (c : String)
  | clinitMarked (c : String)
  | dispatchedVirtual (st : Stage)
  | dispatchedStatic (st : Stage)
deriving DecidableEq, Repr

/-- `memory.StaticFieldStore`: the field map and the
initialization-attempted class set. -/
structure Store where
  fields : List (String × String × Value)
  initialized : List String
deriving DecidableEq, Repr

def Store.isInit (st : Store) (c : String) : Bool := st.initialized.contains c

def Store.markInit (st : Store) (c : String) : Store :=
  if st.initialized.contains c then st
  else { st with initialized := st.initialized ++ [c] }

def Store.setField (st : Store) (c f : String) (v : Value) : Store :=
  { st with fields := (c, f, v) :: st.fields }

def emptyStore : Store := ⟨[], []⟩

/-- One parsed method: owning class, name, textual descriptor, and the lazy
`(bytecode, register count, trace map)` triple (`None` when the method has
no bytecode). -/
structure MethodRec where
  className : String
  name : String
  descriptor : String
  code? : Option (List Nat × Nat × TraceMap)
deriving DecidableEq, Repr

/-- The parsed-archive context the loader searches: the global method list,
the per-class static-field initializers, and the `parser.get_method_name`
table. -/
structure Program where
  methods : List MethodRec
  fieldInits : List (String × List (String × Value))
  methodIdxNames : List String
deriving DecidableEq, Repr

/-- `find_method`: linear search by class and name (the cache is
observationally transparent and omitted). -/
def findMethod (p : Program) (cls nm : String) : Option MethodRec :=
  p.methods.find? (fun m => m.className == cls && m.name == nm)

/-- `.replace(' ', '')`. -/
def stripSpaces (s : String) : String := ⟨s.toList.filter (· ≠ ' ')⟩

/-- `find_method_with_sig`: like `find_method` but comparing the
whitespace-normalized descriptor when a signature is given. -/
def findMethodWithSig (p : Program) (cls nm : String) (sig : Option String) :
    Option MethodRec :=
  p.methods.find? (fun m => m.className == cls && m.name == nm &&
    (match sig with
     | some sg => stripSpaces m.descriptor == stripSpaces sg
     | Option.none => true))

/-- `find_method_by_trace`'s token extraction.  The source first tries a
regex and falls back to scanning whitespace-separated parts for one that
starts with `L` and contains `->`; for trace strings whose method reference
is a single whitespace-delimited token (all disassembler output), both
paths yield the same token, modelled here by the scan. -/
def extractMethodToken (traceStr : String) : Option String :=
  ((pySplit traceStr).find? (fun part => strStarts part "L" && strHas part "->")).map
    rstripCommas

/-- Python `s.split(sep)` for a non-empty separator, as a left-to-right
scan over the character list (fuel-structured on the input length so each
step is structural; one unit of fuel per consumed character suffices
because a separator match consumes at least one). -/
def splitSepFuel (sep : List Char) : Nat → List Char → List Char → List (List Char)
  | 0, _, cur => [cur.reverse]
  | fuel + 1, s, cur =>
    match s with
    | [] => [cur.reverse]
    | c :: cs =>
      if listStartsWith s sep then
        cur.reverse :: splitSepFuel sep fuel (s.drop sep.length) []
      else splitSepFuel sep fuel cs (c :: cur)

/-- Python `s.split(sep)` (empty separators do not occur: the sources only
split on `"->"` and `"("`). -/
def pyStrSplit (s sep : String) : List String :=
  (splitSepFuel sep.toList s.toList.length s.toList []).map (fun l => ⟨l⟩)

/-- Python `s.split(sep)[i]`. -/
def pySplitNth (s sep : String) (i : Nat) : String := ((pyStrSplit s sep).get? i).getD ""

/-- The substring after the first occurrence of `c`
(`s.split(c, 1)[1]`), or `none` when `c` does not occur. -/
def afterFirst (s : String) (c : Char) : Option String :=
  match s.toList.dropWhile (· ≠ c) with
  | [] => Option.none
  | _ :: rest => some ⟨rest⟩

/-- `find_method_by_trace`. -/
def findMethodByTrace (p : Program) (traceStr : String) : Option MethodRec :=
  if ¬ (strHas traceStr "->") then Option.none
  else
    match extractMethodToken traceStr with
    | Option.none => Option.none
    | some tok =>
      if strHas tok "->" then
        let className := pySplitNth tok "->" 0
        let methodWithSig := pySplitNth tok "->" 1
        let methodName := pySplitNth methodWithSig "(" 0
        let fullSig := (afterFirst methodWithSig '(').map (fun r => "(" ++ r)
        findMethodWithSig p className methodName fullSig
      else Option.none

/-- `find_method_by_idx`: resolves the parser's full method name string,
then parses class and name out of it. -/
def findMethodByIdx (p : Program) (idx : Nat) : Option MethodRec :=
  match p.methodIdxNames.get? idx with
  | Option.none => Option.none
  | some full =>
    if ¬ strHas full "->" then Option.none
    else
      let className := pySplitNth full "->" 0
      let methodName := pySplitNth (pySplitNth full "->" 1) "(" 0
      findMethod p className methodName

/-- `_is_external_sdk_class`. -/
def isExternalSdkClass (c : String) : Bool :=
  strStarts c "Ljava/" || strStarts c "Ljavax/" || strStarts c "Landroid/" ||
  strStarts c "Ldalvik/" || strStarts c "Lsun/" || strStarts c "Lorg/apache/" ||
  strStarts c "Lorg/xml/" || strStarts c "Lorg/w3c/" || strStarts c "Lorg/json/" ||
  strStarts c "Ljunit/"

/-- `_load_static_field_values`: seeds the store from the class-definition
initializers (the `fieldInits` table lists exactly the fields whose
`get_init_value()` is truthy), skipping external SDK classes. -/
def loadStaticFieldValues (p : Program) (c : String) (st : Store) : Store :=
  if isExternalSdkClass c then st
  else
    match p.fieldInits.find? (fun e => e.1 == c) with
    | some e => e.2.foldl (fun acc fv => acc.setField c fv.1 fv.2) st
    | Option.none => st

/-- The machine threaded through the execution loops: the current VM, the
process-wide static-field store, and the ghost event log. -/
structure Machine where
  vm : VMState
  store : Store
  events : List Event

/-- `base.decode_invoke_args` (35c): nibble-packed argument registers; the
fifth byte is guarded by a length check and read as 0 past the end. -/
def decodeInvokeArgs (vm : VMState) : Option (Nat × List Value) := do
  let byte1 ← pyIndex vm.bytecode vm.pc
  let byte2 ← pyIndex vm.bytecode (vm.pc + 1)
  let byte3 ← pyIndex vm.bytecode (vm.pc + 2)
  let byte4 ← pyIndex vm.bytecode (vm.pc + 3)
  let methodIdx := byte2 + 256 * byte3
  let argCount := (byte1 / 16) % 16
  let g := byte1 % 16
  let c := byte4 % 16
  let d := (byte4 / 16) % 16
  let byte5 := if vm.pc + 4 < (vm.bytecode.length : Int) then
                 (pyIndex vm.bytecode (vm.pc + 4)).getD 0
               else 0
  let e := byte5 % 16
  let f := (byte5 / 16) % 16
  let args ← ([c, d, e, f, g].take argCount).mapM vm.registers.getReg
  pure (methodIdx, args)

/-- `_decode_invoke_range_args` (3rc): a consecutive register span. -/
def decodeInvokeRangeArgs (vm : VMState) : Option (Nat × List Value) := do
  let argCount ← pyIndex vm.bytecode vm.pc
  let b1 ← pyIndex vm.bytecode (vm.pc + 1)
  let b2 ← pyIndex vm.bytecode (vm.pc + 2)
  let b3 ← pyIndex vm.bytecode (vm.pc + 3)
  let b4 ← pyIndex vm.bytecode (vm.pc + 4)
  let methodIdx := b1 + 256 * b2
  let startReg := b3 + 256 * b4
  let args ← (List.range argCount).mapM (fun i => vm.registers.getReg (startReg + i))
  pure (methodIdx, args)

/-- The class loader seen from an invoke handler:
`class_loader.resolve_and_execute(method_idx, args, vm, trace_str)`.
`none` models a propagating Python exception. -/
abbrev LoaderK := String → Nat → List Value → Store → List Event →
  Option (Value × Store × List Event)

/-- `execute_invoke_static` (35c): built-in static hooks, then the Android
static hook table, then the user hook, then (resolver —
never installed by the driver, left unmodelled behind `hasResolver`),
then the class loader, else a null last result. -/
def executeInvokeStatic (env : HookEnv) (loader : LoaderK) (m : Machine) :
    Option Machine :=
  match decodeInvokeArgs m.vm with
  | Option.none => Option.none
  | some (methodIdx, args) =>
    let traceStr := traceLookup m.vm.traceMap (m.vm.pc - 1)
    match env.builtinStatic args traceStr with
    | some rv =>
      some { m with vm := { m.vm with lastResult := some rv, pc := m.vm.pc + 5 },
                    events := m.events ++ [.dispatchedStatic .builtin] }
    | Option.none =>
      match env.androidStaticHook traceStr with
      | some hook =>
        some { m with
          vm := { m.vm with
            lastResult := some ((hook args).getD Value.none), pc := m.vm.pc + 5 },
          events := m.events ++ [.dispatchedStatic .framework] }
      | Option.none =>
        match (if m.vm.hasUserHook then env.userStaticHook methodIdx args
               else Option.none) with
        | some r =>
          some { m with vm := { m.vm with lastResult := some r, pc := m.vm.pc + 5 },
                        events := m.events ++ [.dispatchedStatic .user] }
        | Option.none =>
          if m.vm.hasResolver then Option.none
          else if m.vm.hasClassLoader then
            match loader traceStr methodIdx args m.store m.events with
            | Option.none => Option.none
            | some (retVal, st', ev') =>
              some { vm := { m.vm with lastResult := some retVal, pc := m.vm.pc + 5 },
                     store := st',
                     events := ev' ++ [.dispatchedStatic .classLoader] }
          else
            some { m with
              vm := { m.vm with lastResult := some Value.none, pc := m.vm.pc + 5 },
              events := m.events ++ [.dispatchedStatic .nullResult] }

/-- `execute_invoke_virtual` (35c): user hook table first (a matching hook
ends dispatch even when it returns `None`, leaving the last result
unchanged), then the Android virtual hook table, then the built-in hooks,
then the class loader (guarded by the skip patterns), else null. -/
def executeInvokeVirtual (env : HookEnv) (loader : LoaderK) (m : Machine) :
    Option Machine :=
  match decodeInvokeArgs m.vm with
  | Option.none => Option.none
  | some (methodIdx, args) =>
    let traceStr := traceLookup m.vm.traceMap (m.vm.pc - 1)
    match (if m.vm.hasMethodHooks then env.userVirtualHook traceStr
           else Option.none) with
    | some hook =>
      some { m with
        vm := { m.vm with
          lastResult := (match hook args with
                         | some v => some v
                         | Option.none => m.vm.lastResult),
          pc := m.vm.pc + 5 },
        events := m.events ++ [.dispatchedVirtual .user] }
    | Option.none =>
      match env.androidVirtualHook traceStr with
      | some hook =>
        some { m with
          vm := { m.vm with
            lastResult := some ((hook args).getD Value.none), pc := m.vm.pc + 5 },
          events := m.events ++ [.dispatchedVirtual .framework] }
      | Option.none =>
        match env.builtinVirtual args traceStr with
        | some rv =>
          some { m with vm := { m.vm with lastResult := some rv, pc := m.vm.pc + 5 },
                        events := m.events ++ [.dispatchedVirtual .builtin] }
        | Option.none =>
          if m.vm.hasClassLoader ∧
             ¬ (strHas traceStr "StringBuilder" ∨ strHas traceStr "PrintStream" ∨
                strHas traceStr "System") ∧
             strHas traceStr "->" then
            match loader "" methodIdx args m.store m.events with
            | Option.none => Option.none
            | some (rv, st', ev') =>
              some { vm := { m.vm with lastResult := some rv, pc := m.vm.pc + 5 },
                     store := st',
                     events := ev' ++ [.dispatchedVirtual .classLoader] }
          else
            some { m with
              vm := { m.vm with lastResult := some Value.none, pc := m.vm.pc + 5 },
              events := m.events ++ [.dispatchedVirtual .nullResult] }

/-- `execute_invoke_virtual_range` (3rc): built-in hooks, then the class
loader, else null — no framework and no user hook stage. -/
def executeInvokeVirtualRange (env : HookEnv) (loader : LoaderK) (m : Machine) :
    Option Machine :=
  match decodeInvokeRangeArgs m.vm with
  | Option.none => Option.none
  | some (methodIdx, args) =>
    let traceStr := traceLookup m.vm.traceMap (m.vm.pc - 1)
    match env.builtinVirtual args traceStr with
    | some rv =>
      some { m with vm := { m.vm with lastResult := some rv, pc := m.vm.pc + 5 },
                    events := m.events ++ [.dispatchedVirtual .builtin] }
    | Option.none =>
      if m.vm.hasClassLoader then
        match loader traceStr methodIdx args m.store m.events with
        | Option.none => Option.none
        | some (rv, st', ev') =>
          some { vm := { m.vm with lastResult := some rv, pc := m.vm.pc + 5 },
                 store := st',
                 events := ev' ++ [.dispatchedVirtual .classLoader] }
      else
        some { m with
          vm := { m.vm with lastResult := some Value.none, pc := m.vm.pc + 5 },
          events := m.events ++ [.dispatchedVirtual .nullResult] }

/-- `execute_invoke_static_range` (3rc): built-in static hooks (with the
void sentinel mapped to a null result), then the class loader, else null —
no framework and no user hook stage. -/
def executeInvokeStaticRange (env : HookEnv) (loader : LoaderK) (m : Machine) :
    Option Machine :=
  match decodeInvokeRangeArgs m.vm with
  | Option.none => Option.none
  | some (methodIdx, args) =>
    let traceStr := traceLookup m.vm.traceMap (m.vm.pc - 1)
    match env.builtinStatic args traceStr with
    | some rv =>
      some { m with
        vm := { m.vm with
          lastResult := some (if rv = voidHookSentinel then Value.none else rv),
          pc := m.vm.pc + 5 },
        events := m.events ++ [.dispatchedStatic .builtin] }
    | Option.none =>
      if m.vm.hasClassLoader then
        match loader traceStr methodIdx args m.store m.events with
        | Option.none => Option.none
        | some (rv, st', ev') =>
          some { vm := { m.vm with lastResult := some rv, pc := m.vm.pc + 5 },
                 store := st',
                 events := ev' ++ [.dispatchedStatic .classLoader] }
      else
        some { m with
          vm := { m.vm with lastResult := some Value.none, pc := m.vm.pc + 5 },
          events := m.events ++ [.dispatchedStatic .nullResult] }

/-- Lift a pure per-VM handler to the machine. -/
def liftVM (f : VMState → Option VMState) : Machine → Option Machine :=
  fun m => (f m.vm).map (fun vm' => { m with vm := vm' })

/-- The dispatch table (`HANDLERS`), restricted to the opcodes this
development exercises; an absent entry behaves like the source's
unimplemented-opcode break in the execution loops. -/
def handlersFor (env : HookEnv) (loader : LoaderK) (op : Nat) :
    Option (Machine → Option Machine) :=
  if op = 0x0e then some (liftVM execute_return_void)
  else if op = 0x0f then some (liftVM execute_return)
  else if op = 0x24 then some (liftVM execute_filled_new_array)
  else if op = 0x26 then some (liftVM execute_fill_array_data)
  else if op = 0x28 then some (liftVM execute_goto)
  else if op = 0x44 then some (liftVM execute_aget)
  else if op = 0x4b then some (liftVM execute_aput)
  else if op = 0x6e then some (executeInvokeVirtual env loader)
  else if op = 0x71 then some (executeInvokeStatic env loader)
  else if op = 0x74 then some (executeInvokeVirtualRange env loader)
  else if op = 0x77 then some (executeInvokeStaticRange env loader)
  else if op = 0x90 then some (liftVM execute_add_int)
  else if op = 0x93 then some (liftVM execute_div_int)
  else Option.none

/-- The bounded execution loop of `LazyClassLoader.execute_method`
(`while pc < len and step < max_steps`), also returning the number of
handler dispatches performed at this level.  `none` is a propagating
handler exception; an unimplemented opcode breaks after the opcode fetch. -/
def execLoopAux (table : Nat → Option (Machine → Option Machine)) :
    Nat → Machine → Option (Machine × Nat)
  | 0, m => some (m, 0)
  | steps + 1, m =>
    if m.vm.pc < (m.vm.bytecode.length : Int) then
      if m.vm.finished then some (m, 0)
      else
        match pyIndex m.vm.bytecode m.vm.pc with
        | Option.none => Option.none
        | some op =>
          let m1 : Machine := { m with vm := { m.vm with pc := m.vm.pc + 1 } }
          match table op with
          | some h =>
            match h m1 with
            | Option.none => Option.none
            | some m2 =>
              match execLoopAux table steps m2 with
              | Option.none => Option.none
              | some (m3, used) => some (m3, used + 1)
          | Option.none => some (m1, 0)
    else some (m, 0)

/-- The bounded execution loop of `_run_clinit`: no finished check, and a
`return-void` opcode (0x0e) breaks before dispatch. -/
def clinitLoopAux (table : Nat → Option (Machine → Option Machine)) :
    Nat → Machine → Option (Machine × Nat)
  | 0, m => some (m, 0)
  | steps + 1, m =>
    if m.vm.pc < (m.vm.bytecode.length : Int) then
      match pyIndex m.vm.bytecode m.vm.pc with
      | Option.none => Option.none
      | some op =>
        let m1 : Machine := { m with vm := { m.vm with pc := m.vm.pc + 1 } }
        if op = 0x0e then some (m1, 0)
        else
          match table op with
          | some h =>
            match h m1 with
            | Option.none => Option.none
            | some m2 =>
              match clinitLoopAux table steps m2 with
              | Option.none => Option.none
              | some (m3, used) => some (m3, used + 1)
          | Option.none => some (m1, 0)
    else some (m, 0)

/-- A fresh child interpreter as `execute_method` / `_run_clinit` build it:
silent, class loader attached, no hooks or resolver. -/
def mkVM (bytecode : List Nat) (regsSize : Nat) (tm : TraceMap) : VMState :=
  { bytecode := bytecode, pc := 0, registers := mkRegs regsSize, arrays := [],
    lastResult := Option.none, finished := false, traceMap := tm,
    hasUserHook := false, hasMethodHooks := false, hasResolver := false,
    hasClassLoader := true, silent := true, warnCount := 0 }

/-- Argument placement: `child.registers[regs_size - len(args) + i] = args[i]`. -/
def loadArgs (regs : Regs) (startReg : Nat) (args : List Value) : Regs :=
  (args.enum).foldl (fun r pr => r.setReg (startReg + pr.1) pr.2) regs

/-- The three mutually recursive loader entry points, defunctionalized:
`resolve_and_execute`, `execute_method`, `_run_clinit`. -/
inductive LCall where
  | resolve (traceStr : String) (methodIdx : Nat) (args : List Value)
  | execMethod (mr : MethodRec) (args : List Value)
  | clinit (c : String)

abbrev RecurK := LCall → Store → List Event → Option (Value × Store × List Event)

/-- One recursion layer of the loader.  `recur` performs the nested calls
(one fuel level down).  The returned `Value` is what the Python caller
receives (`None` collapsed to `Value.none`). -/
def loaderRunStep (env : HookEnv) (p : Program) (recur : RecurK) :
    LCall → Store → List Event → Option (Value × Store × List Event)
  | .resolve traceStr methodIdx args, st, ev =>
    let viaTrace := if traceStr ≠ "" then findMethodByTrace p traceStr else Option.none
    let method? := match viaTrace with
      | some mr => some mr
      | Option.none => findMethodByIdx p methodIdx
    match method? with
    | Option.none => some (Value.none, st, ev)
    | some mr => recur (.execMethod mr args) st ev
  | .execMethod mr args, st, ev =>
    match mr.code? with
    | Option.none => some (Value.none, st, ev)
    | some (bytecode, regsSize, tm) =>
      let init := if st.isInit mr.className then some (Value.none, st, ev)
                  else recur (.clinit mr.className) st ev
      match init with
      | Option.none => Option.none
      | some (_, st1, ev1) =>
        let vm0 := mkVM bytecode regsSize tm
        let vm1 := { vm0 with
          registers := loadArgs vm0.registers (regsSize - args.length) args }
        let loader : LoaderK := fun tr idx as stx evx =>
          recur (.resolve tr idx as) stx evx
        match execLoopAux (handlersFor env loader) 5000 ⟨vm1, st1, ev1⟩ with
        | Option.none => Option.none
        | some (mach, _) =>
          some ((match mach.vm.lastResult with
                 | some v => v
                 | Option.none => Value.none), mach.store, mach.events)
  | .clinit c, st, ev =>
    if st.isInit c then some (Value.none, st, ev)
    else
      let st1 := loadStaticFieldValues p c st
      match findMethod p c "<clinit>" with
      | Option.none => some (Value.none, st1.markInit c, ev)
      | some clinit =>
        match clinit.code? with
        | Option.none => some (Value.none, st1.markInit c, ev)
        | some (bytecode, regsSize, tm) =>
          let vm0 := mkVM bytecode regsSize tm
          let loader : LoaderK := fun tr idx as stx evx =>
            recur (.resolve tr idx as) stx evx
          let ev1 := ev ++ [Event.clinitStart c]
          match clinitLoopAux (handlersFor env loader) 500 ⟨vm0, st1, ev1⟩ with
          | Option.none => Option.none
          | some (mach, _) =>
            some (Value.none, mach.store.markInit c,
                  mach.events ++ [Event.clinitMarked c])

/-- Fuel-indexed loader.  Exhausted fuel returns a null value with the
store and events accumulated so far (a model artifact standing for the
unbounded recursion the Python code would perform). -/
def loaderRun (env : HookEnv) (p : Program) : Nat → RecurK
  | 0 => fun _ st ev => some (Value.none, st, ev)
  | fuel + 1 => loaderRunStep env p (loaderRun env p fuel)

/-- The `i`-th little-endian `w`-byte integer of a fill-array-data payload,
exactly as the handler's loop decodes it: widths 1 and 2 unsigned, width 4
signed; other widths are not decoded at all. -/
def payloadElem (bc : List Nat) (dataStart : Int) (w i : Nat) : Option Int :=
  if w = 1 then (pyIndex bc (dataStart + i)).map (fun b => (b : Int))
  else if w = 2 then
    some (leUnsigned (pySlice bc (dataStart + 2 * i) (dataStart + 2 * i + 2)))
  else if w = 4 then
    some (leSigned (pySlice bc (dataStart + 4 * i) (dataStart + 4 * i + 4)))
  else Option.none

/-! ## Concrete machine states used by witnesses and counterexamples -/

/-- Base state for the array-opcode witnesses: bytecode `AA BB CC = 0 1 2`,
`v0` a value register, `v1` an array handle, `v2` the index register; the
heap holds one array of size 3. -/
def c5S (idx : Int) (v0 : Value) : VMState :=
  { bytecode := [0, 1, 2], pc := 0,
    registers := ⟨[v0, .arrv 0, .intv idx]⟩,
    arrays := [⟨7, 3, [.intv 10, .intv 20, .intv 30]⟩],
    lastResult := Option.none, finished := false, traceMap := [],
    hasUserHook := false, hasMethodHooks := false, hasResolver := false,
    hasClassLoader := false, silent := false, warnCount := 0 }

/-- `aget v0, v1, v2` with index −1. -/
def c5a : VMState := c5S (-1) (.intv 0)
/-- `aput v0, v1, v2` with index 3 = size. -/
def c5b : VMState := c5S 3 (.intv 0)
/-- index 1, in bounds. -/
def c5c : VMState := c5S 1 (.intv 0)
/-- `aput` of an object reference at index 1. -/
def c10a : VMState := c5S 1 (.objv 5)

/-- `fill-array-data v0, +3` over a size-1 array, with a well-formed
`0x0300` payload of element width 8 and declared size 1 whose single
element is 42.  The payload lives at byte 6 (= instr_start 0 + offset 3·2).
pc is 1: the dispatch loop has consumed the opcode byte. -/
def c6S : VMState :=
  { bytecode := [0x26, 0x00, 0x03, 0x00, 0x00, 0x00,
                 0x00, 0x03, 0x08, 0x00, 0x01, 0x00, 0x00, 0x00,
                 0x2A, 0x00, 0x00, 0x00, 0x00, 0x00, 0x00, 0x00],
    pc := 1, registers := ⟨[.arrv 0]⟩, arrays := [⟨9, 1, [.intv 0]⟩],
    lastResult := Option.none, finished := false, traceMap := [],
    hasUserHook := false, hasMethodHooks := false, hasResolver := false,
    hasClassLoader := false, silent := false, warnCount := 0 }

/-- A width-2 fill for the C6 witness: `fill-array-data v0, +3` over a
size-2 array, payload width 2, declared size 2, elements `[258, 772]`
(little-endian `02 01` and `04 03`). -/
def c6W : VMState :=
  { c6S with
    bytecode := [0x26, 0x00, 0x03, 0x00, 0x00, 0x00,
                 0x00, 0x03, 0x02, 0x00, 0x02, 0x00, 0x00, 0x00,
                 0x02, 0x01, 0x04, 0x03],
    arrays := [⟨9, 2, [.intv 0, .intv 0]⟩] }

/-- The stage `execute_invoke_static` (35c) actually resolves with, read
off its dispatch chain: built-ins, then the framework (Android) table,
then the user hook, then the class loader, else null.  (With a resolver
installed the handler is unmodelled and returns `none`, so no stage.) -/
def staticStageFor (env : HookEnv) (m : Machine) (methodIdx : Nat)
    (args : List Value) (traceStr : String) : Stage :=
  if (env.builtinStatic args traceStr).isSome then .builtin
  else if (env.androidStaticHook traceStr).isSome then .framework
  else if m.vm.hasUserHook ∧ (env.userStaticHook methodIdx args).isSome then .user
  else if m.vm.hasClassLoader then .classLoader
  else .nullResult

/-- The stage `execute_invoke_virtual` (35c) actually resolves with: the
user hook first, then the framework table, then the built-ins, then the
class loader behind the skip patterns, else null. -/
def virtualStageFor (env : HookEnv) (m : Machine) (args : List Value)
    (traceStr : String) : Stage :=
  if m.vm.hasMethodHooks ∧ (env.userVirtualHook traceStr).isSome then .user
  else if (env.androidVirtualHook traceStr).isSome then .framework
  else if (env.builtinVirtual args traceStr).isSome then .builtin
  else if m.vm.hasClassLoader ∧
          ¬ (strHas traceStr "StringBuilder" ∨ strHas traceStr "PrintStream" ∨
             strHas traceStr "System") ∧
          strHas traceStr "->" then .classLoader
  else .nullResult

/-- The stage `execute_invoke_virtual/range` actually resolves with:
built-ins, then the class loader, else null — no framework and no user
stage at all. -/
def virtualRangeStageFor (env : HookEnv) (m : Machine) (args : List Value)
    (traceStr : String) : Stage :=
  if (env.builtinVirtual args traceStr).isSome then .builtin
  else if m.vm.hasClassLoader then .classLoader
  else .nullResult

/-- The stage `execute_invoke_static/range` actually resolves with:
built-ins, then the class loader, else null. -/
def staticRangeStageFor (env : HookEnv) (m : Machine) (args : List Value)
    (traceStr : String) : Stage :=
  if (env.builtinStatic args traceStr).isSome then .builtin
  else if m.vm.hasClassLoader then .classLoader
  else .nullResult

/-- A loader continuation that models a propagating failure on any nested
call (never reached in the runs below). -/
def nullLoader : LoaderK := fun _ _ _ _ _ => Option.none

/-- A recursion continuation that answers every nested loader call with a
null value (the fuel-exhausted behaviour; never reached in the runs
below). -/
def nullRecur : RecurK := fun _ st ev => some (Value.none, st, ev)

/-- A hook environment in which *every* table matches, with distinct
values telling the stages apart: framework hooks return 2, user hooks 1,
built-ins 3. -/
def c2Env : HookEnv :=
  ⟨fun _ => some (fun _ => some (Value.intv 2)),
   fun _ => some (fun _ => some (Value.intv 2)),
   fun _ => some (fun _ => some (Value.intv 1)),
   fun _ _ => some (Value.intv 1),
   fun _ _ => some (Value.intv 3),
   fun _ _ => some (Value.intv 3)⟩

/-- An environment in which only the framework virtual table matches. -/
def c2EnvR : HookEnv :=
  { noHooks with androidVirtualHook := fun _ => some (fun _ => some (Value.intv 2)) }

/-- A machine sitting on a decodable zero-register invoke (all operand
bytes 0), with user method hooks installed and no class loader. -/
def c2VM0 : VMState :=
  { bytecode := [0, 0, 0, 0, 0], pc := 0, registers := mkRegs 1, arrays := [],
    lastResult := Option.none, finished := false, traceMap := [],
    hasUserHook := false, hasMethodHooks := true, hasResolver := false,
    hasClassLoader := false, silent := false, warnCount := 0 }

def c2MV0 : Machine := ⟨c2VM0, emptyStore, []⟩

def c2MS0 : Machine := ⟨{ c2VM0 with hasMethodHooks := false }, emptyStore, []⟩

/-- The virtual dispatch outcome under `c2Env`: the user hook's value. -/
def c2MV1 : Machine :=
  ⟨{ c2VM0 with lastResult := some (Value.intv 1), pc := 5 }, emptyStore,
   [Event.dispatchedVirtual Stage.user]⟩

/-- The static dispatch outcome under `c2Env`: the built-in's value. -/
def c2MS1 : Machine :=
  ⟨{ c2VM0 with hasMethodHooks := false, lastResult := some (Value.intv 3), pc := 5 }, emptyStore,
   [Event.dispatchedStatic Stage.builtin]⟩

/-- The virtual/range dispatch outcome under `c2EnvR`: a null result even
though the framework table matches. -/
def c2MR1 : Machine :=
  ⟨{ c2VM0 with lastResult := some Value.none, pc := 5 }, emptyStore,
   [Event.dispatchedVirtual Stage.nullResult]⟩

/-- A `<clinit>` body that re-triggers its own class's initialization:
`invoke-static LC;->m()V` (opcode 0x71, five operand bytes), then
`return-void`. -/
def c1BC : List Nat := [0x71, 0, 0, 0, 0, 0, 0x0e]

/-- The trace entry the invoke handler reads at pc 0. -/
def c1TM : TraceMap := [(0, "invoke-static LC;->m()V", 3)]

/-- The `<clinit>` of class `LC;`. -/
def c1Clinit : MethodRec := ⟨"LC;", "<clinit>", "()V", some (c1BC, 1, c1TM)⟩

/-- A trivial static method of `LC;`, whose execution (via
`execute_method`) re-checks the initialization of `LC;`. -/
def c1M : MethodRec := ⟨"LC;", "m", "()V", some ([0x0e], 1, [])⟩

/-- The program holding the two `LC;` methods. -/
def c1P : Program := ⟨[c1Clinit, c1M], [], []⟩

/-- A method body that sets a non-null last result and then spins on a
self-targeting `goto`: `filled-new-array` of zero registers (opcode 0x24,
five operand bytes), then `goto 0` at position 6 (`pc = instr_start +
offset*2` with offset 0 jumps to its own instruction start). -/
def c8BC : List Nat := [0x24, 0, 0, 0, 0, 0, 0x28, 0]

/-- A store in which class `LC8;` is already initialized, so
`execute_method` skips the `<clinit>` path. -/
def c8St : Store := ⟨[], ["LC8;"]⟩

/-- The machine at entry of the `c8BC` method body. -/
def c8M0 : Machine := ⟨mkVM c8BC 1 [], c8St, []⟩

/-- The loop state after the `filled-new-array`: pc 6 (the `goto`), the
empty array allocated, and the array reference in the last-result slot.
The self-jump reproduces this machine exactly, so the 5000-step cap is the
only thing that stops the method. -/
def c8MG : Machine :=
  ⟨{ mkVM c8BC 1 [] with pc := 6, arrays := [⟨0, 0, []⟩], lastResult := some (Value.arrv 0) }, c8St, []⟩

/-- The method record wrapping `c8BC`. -/
def c8MR : MethodRec := ⟨"LC8;", "loop", "()V", some (c8BC, 1, [])⟩

/-- A trivial `return-void` method of the same class. -/
def c8RVMR : MethodRec := ⟨"LC8;", "rv", "()V", some ([0x0e], 1, [])⟩

/-- A minimal program holding the two `LC8;` methods. -/
def c8P : Program := ⟨[c8MR, c8RVMR], [], []⟩

/-- The machine after the `return-void` method finishes. -/
def c8MV : Machine :=
  ⟨{ mkVM [0x0e] 1 [] with pc := 1, finished := true, lastResult := some Value.none }, c8St, []⟩

/-- A caller trace for the slicer: a constructor argument (`v1`) defined
*between* `new-instance` and its `invoke-direct`, the common Dalvik layout.
The invoke being sliced sits at pc 8 with argument register `v0`. -/
def c9TM : TraceMap :=
  [(0, "new-instance v0, LFoo;", 2),
   (2, "const/16 v1, 5", 2),
   (4, "invoke-direct v0, v1, LFoo;-><init>(I)V", 3)]

/-- A straight-line trace where every read's defining PC precedes its
reader: `const v1` then `add-int v0, v1, v1`, sliced at pc 4 for `v0`. -/
def c9TM2 : TraceMap :=
  [(0, "const/16 v1, 7", 2), (2, "add-int v0, v1, v1", 2)]

/-- A VM state with no special features, integer registers
`[0, 7, 0]`, bytecode `AA BB CC = 0 1 2`. -/
def c3S : VMState :=
  { bytecode := [0, 1, 2], pc := 0, registers := ⟨[.intv 0, .intv 7, .intv 0]⟩,
    arrays := [], lastResult := Option.none, finished := false, traceMap := [],
    hasUserHook := false, hasMethodHooks := false, hasResolver := false,
    hasClassLoader := false, silent := false, warnCount := 0 }

/-- Like `c3S` but with float registers `[3.0, 3.0, 0.0]`. -/
def c3FS : VMState :=
  { c3S with registers := ⟨[.floatv (.finite 3), .floatv (.finite 3), .floatv (.finite 0)]⟩ }

/-- `add-int v0, v1, v2` with `v1 = -1`, `v2 = 0`: the mathematical sum is
`-1`. -/
def c4S : VMState :=
  { c3S with registers := ⟨[.intv 0, .intv (-1), .intv 0]⟩ }

end DaliVM

namespace DaliVM

/-! ## Theorems -/

/-- **C3.** For every integer div and rem opcode (23x, 2addr, lit16 and lit8
forms, int and long), a zero divisor yields a zero result in the
destination register; float and double division by zero yields IEEE
infinity, and float and double remainder by zero yields NaN. -/
theorem div_rem_by_zero_semantics :
    (∀ (s : VMState) (aa bb cc : Nat),
      pyIndex s.bytecode s.pc = some aa →
      pyIndex s.bytecode (s.pc + 1) = some bb →
      pyIndex s.bytecode (s.pc + 2) = some cc →
      s.registers.get_int cc = 0 →
      execute_div_int s =
        some { s with registers := s.registers.setReg aa (.intv 0), pc := s.pc + 3 } ∧
      execute_rem_int s =
        some { s with registers := s.registers.setReg aa (.intv 0), pc := s.pc + 3 } ∧
      execute_div_long s =
        some { s with registers := (s.registers.setReg aa (.intv 0)).setReg (aa + 1) .none,
                      pc := s.pc + 3 } ∧
      execute_rem_long s =
        some { s with registers := (s.registers.setReg aa (.intv 0)).setReg (aa + 1) .none,
                      pc := s.pc + 3 }) ∧
    (∀ (s : VMState) (byte1 : Nat),
      pyIndex s.bytecode s.pc = some byte1 →
      s.registers.get_int (byte1 / 16) = 0 →
      execute_div_int_2addr s =
        some { s with registers := s.registers.setReg (byte1 % 16) (.intv 0),
                      pc := s.pc + 1 } ∧
      execute_rem_int_2addr s =
        some { s with registers := s.registers.setReg (byte1 % 16) (.intv 0),
                      pc := s.pc + 1 } ∧
      execute_div_long_2addr s =
        some { s with registers := (s.registers.setReg (byte1 % 16) (.intv 0)).setReg
                        (byte1 % 16 + 1) .none,
                      pc := s.pc + 1 } ∧
      execute_rem_long_2addr s =
        some { s with registers := (s.registers.setReg (byte1 % 16) (.intv 0)).setReg
                        (byte1 % 16 + 1) .none,
                      pc := s.pc + 1 }) ∧
    (∀ (s : VMState) (byte1 : Nat),
      pyIndex s.bytecode s.pc = some byte1 →
      leSigned (pySlice s.bytecode (s.pc + 1) (s.pc + 3)) = 0 →
      execute_div_int_lit16 s =
        some { s with registers := s.registers.setReg (byte1 % 16) (.intv 0),
                      pc := s.pc + 3 } ∧
      execute_rem_int_lit16 s =
        some { s with registers := s.registers.setReg (byte1 % 16) (.intv 0),
                      pc := s.pc + 3 }) ∧
    (∀ (s : VMState) (aa bb : Nat),
      pyIndex s.bytecode s.pc = some aa →
      pyIndex s.bytecode (s.pc + 1) = some bb →
      leSigned (pySlice s.bytecode (s.pc + 2) (s.pc + 3)) = 0 →
      execute_div_int_lit8 s =
        some { s with registers := s.registers.setReg aa (.intv 0), pc := s.pc + 3 } ∧
      execute_rem_int_lit8 s =
        some { s with registers := s.registers.setReg aa (.intv 0), pc := s.pc + 3 }) ∧
    (∀ (s : VMState) (aa bb cc : Nat) (rb rc : Value) (fb : PyFloat),
      pyIndex s.bytecode s.pc = some aa →
      pyIndex s.bytecode (s.pc + 1) = some bb →
      pyIndex s.bytecode (s.pc + 2) = some cc →
      s.registers.getReg bb = some rb →
      s.registers.getReg cc = some rc →
      pyFloatOf rb = some fb →
      pyFloatOf rc = some (.finite 0) →
      execute_div_float s =
        some { s with registers := s.registers.setReg aa (.floatv .inf), pc := s.pc + 3 } ∧
      execute_rem_float s =
        some { s with registers := s.registers.setReg aa (.floatv .nan), pc := s.pc + 3 } ∧
      execute_div_double s =
        some { s with registers := (s.registers.setReg aa (.floatv .inf)).setReg (aa + 1) .none,
                      pc := s.pc + 3 } ∧
      execute_rem_double s =
        some { s with registers := (s.registers.setReg aa (.floatv .nan)).setReg (aa + 1) .none,
                      pc := s.pc + 3 }) ∧
    (∀ (s : VMState) (byte1 : Nat) (ra rb : Value) (fa : PyFloat),
      pyIndex s.bytecode s.pc = some byte1 →
      s.registers.getReg (byte1 % 16) = some ra →
      s.registers.getReg (byte1 / 16) = some rb →
      pyFloatOf ra = some fa →
      pyFloatOf rb = some (.finite 0) →
      execute_div_float_2addr s =
        some { s with registers := s.registers.setReg (byte1 % 16) (.floatv .inf),
                      pc := s.pc + 1 } ∧
      execute_rem_float_2addr s =
        some { s with registers := s.registers.setReg (byte1 % 16) (.floatv .nan),
                      pc := s.pc + 1 } ∧
      execute_div_double_2addr s =
        some { s with registers := (s.registers.setReg (byte1 % 16) (.floatv .inf)).setReg
                        (byte1 % 16 + 1) .none,
                      pc := s.pc + 1 } ∧
      execute_rem_double_2addr s =
        some { s with registers := (s.registers.setReg (byte1 % 16) (.floatv .nan)).setReg
                        (byte1 % 16 + 1) .none,
                      pc := s.pc + 1 }) := by
  refine ⟨?_, ?_, ?_, ?_, ?_, ?_⟩
  · intro s aa bb cc h1 h2 h3 hz
    refine ⟨?_, ?_, ?_, ?_⟩ <;>
      simp [execute_div_int, execute_rem_int, execute_div_long, execute_rem_long,
        arith23x, arithLong23x, h1, h2, h3, hz, opDiv, opRem, Int.zero_emod]
  · intro s byte1 h1 hz
    refine ⟨?_, ?_, ?_, ?_⟩ <;>
      simp [execute_div_int_2addr, execute_rem_int_2addr, execute_div_long_2addr,
        execute_rem_long_2addr, arith2addr, arithLong2addr, h1, hz, opDiv, opRem]
  · intro s byte1 h1 hz
    refine ⟨?_, ?_⟩ <;>
      simp [execute_div_int_lit16, execute_rem_int_lit16, arithLit16, h1, hz, opDiv, opRem]
  · intro s aa bb h1 h2 hz
    refine ⟨?_, ?_⟩ <;>
      simp [execute_div_int_lit8, execute_rem_int_lit8, arithLit8, h1, h2, hz, opDiv, opRem]
  · intro s aa bb cc rb rc fb h1 h2 h3 h4 h5 h6 h7
    refine ⟨?_, ?_, ?_, ?_⟩ <;>
      simp [execute_div_float, execute_rem_float, execute_div_double, execute_rem_double,
        arithFloat23x, arithDouble23x, h1, h2, h3, h4, h5, h6, h7, opFDiv, opFRem,
        PyFloat.isZero]
  · intro s byte1 ra rb fa h1 h2 h3 h4 h5
    refine ⟨?_, ?_, ?_, ?_⟩ <;>
      simp [execute_div_float_2addr, execute_rem_float_2addr, execute_div_double_2addr,
        execute_rem_double_2addr, arithFloat2addr, arithDouble2addr, h1, h2, h3, h4, h5,
        opFDiv, opFRem, PyFloat.isZero]

/-- Witness for C3: `div-int v0, v1, v2` with `v2 = 0` stores 0;
`div-float v0, v1, v2` with `v2 = 0.0` stores `inf`. -/
theorem div_rem_by_zero_semantics_witness :
    execute_div_int c3S =
      some { c3S with registers := c3S.registers.setReg 0 (.intv 0), pc := c3S.pc + 3 } ∧
    execute_div_float c3FS =
      some { c3FS with registers := c3FS.registers.setReg 0 (.floatv .inf),
                       pc := c3FS.pc + 3 } :=
  ⟨(div_rem_by_zero_semantics.1 c3S 0 1 2 rfl rfl rfl rfl).1,
   (div_rem_by_zero_semantics.2.2.2.2.1 c3FS 0 1 2 (.floatv (.finite 3))
      (.floatv (.finite 0)) (.finite 3) rfl rfl rfl rfl rfl rfl rfl).1⟩

/-- **C4** (counterexample).  The claim says every 32-bit arithmetic opcode
stores the signed two's-complement wrap, a value in `[-2^31, 2^31)`.  But
`add-int v0, v1, v2` (23x form) with `v1 = -1`, `v2 = 0` stores
`(-1) & 0xFFFFFFFF = 4294967295`, the *unsigned* reduction, which lies
outside the claimed signed range. -/
theorem arith32_signed_range_counterexample :
    execute_add_int c4S =
      some { c4S with registers := c4S.registers.setReg 0 (.intv 4294967295),
                      pc := c4S.pc + 3 } ∧
    ¬ ((4294967295 : Int) < 2147483648) := by
  constructor
  · simp [execute_add_int, arith23x, c4S, c3S, Regs.get_int, pyIndex, Regs.setReg]
  · decide

/-- **C4** (amended).  For the 32-bit arithmetic opcodes the stored value is
congruent mod `2^32` to the operation's mathematical result in all four
forms, but only the 23x form reduces it — into the *unsigned* range
`[0, 2^32)`; the 2addr form subtracts `2^32` exactly once when the result
exceeds `2^31 - 1` (so large products and very negative results stay
unreduced), and the lit16/lit8 forms store the raw mathematical result.
No form guarantees the signed range `[-2^31, 2^31)`. -/
theorem arith32_wrap_amended :
    (∀ (op : Int → Int → Int) (s : VMState) (aa bb cc : Nat),
      pyIndex s.bytecode s.pc = some aa →
      pyIndex s.bytecode (s.pc + 1) = some bb →
      pyIndex s.bytecode (s.pc + 2) = some cc →
      ∃ v : Int,
        arith23x op s =
          some { s with registers := s.registers.setReg aa (.intv v), pc := s.pc + 3 } ∧
        v % 4294967296 = op (s.registers.get_int bb) (s.registers.get_int cc) % 4294967296 ∧
        0 ≤ v ∧ v < 4294967296) ∧
    (∀ (op : Int → Int → Int) (s : VMState) (byte1 : Nat),
      pyIndex s.bytecode s.pc = some byte1 →
      ∃ v : Int,
        arith2addr op s =
          some { s with registers := s.registers.setReg (byte1 % 16) (.intv v),
                        pc := s.pc + 1 } ∧
        v % 4294967296 =
          op (s.registers.get_int (byte1 % 16)) (s.registers.get_int (byte1 / 16)) %
            4294967296) ∧
    (∀ (op : Int → Int → Int) (s : VMState) (byte1 : Nat),
      pyIndex s.bytecode s.pc = some byte1 →
      arithLit16 op s =
        some { s with
          registers := s.registers.setReg (byte1 % 16)
            (.intv (op (s.registers.get_int (byte1 / 16))
              (leSigned (pySlice s.bytecode (s.pc + 1) (s.pc + 3))))),
          pc := s.pc + 3 }) ∧
    (∀ (op : Int → Int → Int) (s : VMState) (aa bb : Nat),
      pyIndex s.bytecode s.pc = some aa →
      pyIndex s.bytecode (s.pc + 1) = some bb →
      arithLit8 op s =
        some { s with
          registers := s.registers.setReg aa
            (.intv (op (s.registers.get_int bb)
              (leSigned (pySlice s.bytecode (s.pc + 2) (s.pc + 3))))),
          pc := s.pc + 3 }) := by
  refine ⟨?_, ?_, ?_, ?_⟩
  · intro op s aa bb cc h1 h2 h3
    refine ⟨op (s.registers.get_int bb) (s.registers.get_int cc) % 4294967296, ?_, ?_, ?_, ?_⟩
    · simp [arith23x, h1, h2, h3]
    · simp [Int.emod_emod_of_dvd]
    · exact Int.emod_nonneg _ (by norm_num)
    · exact Int.emod_lt_of_pos _ (by norm_num)
  · intro op s byte1 h1
    set r := op (s.registers.get_int (byte1 % 16)) (s.registers.get_int (byte1 / 16)) with hr
    refine ⟨if r > 2147483647 then r - 4294967296 else r, ?_, ?_⟩
    · simp [arith2addr, h1, hr]
    · by_cases h : r > 2147483647 <;> simp [h, Int.sub_emod]
  · intro op s byte1 h1
    simp [arithLit16, h1]
  · intro op s aa bb h1 h2
    simp [arithLit8, h1, h2]

/-- Witness for C4 (amended): each form applied at `c3S` (`v1 = 7`). -/
theorem arith32_wrap_amended_witness :
    (∃ v : Int,
      arith23x (fun a b => a + b) c3S =
        some { c3S with registers := c3S.registers.setReg 0 (.intv v), pc := c3S.pc + 3 } ∧
      v % 4294967296 =
        ((fun a b => a + b) (c3S.registers.get_int 1) (c3S.registers.get_int 2)) %
          4294967296 ∧
      0 ≤ v ∧ v < 4294967296) ∧
    (∃ v : Int,
      arith2addr (fun a b => a + b) c3S =
        some { c3S with registers := c3S.registers.setReg 0 (.intv v), pc := c3S.pc + 1 } ∧
      v % 4294967296 =
        ((fun a b => a + b) (c3S.registers.get_int 0) (c3S.registers.get_int 0)) %
          4294967296) := by
  constructor
  · exact arith32_wrap_amended.1 (fun a b => a + b) c3S 0 1 2 rfl rfl rfl
  · exact arith32_wrap_amended.2.1 (fun a b => a + b) c3S 0 rfl

/-- **C5.** For every array-element get and put and every index outside
`[0, size)` the access warns and is otherwise ignored: the put changes no
array (and allocates nothing — the heap is untouched), the get writes zero
to the destination; for indices inside `[0, size)` the get loads element
`i` and the put stores into element `i`. -/
theorem array_bounds_semantics :
    (∀ (s : VMState) (aa bb cc h : Nat) (arr : DArray),
      pyIndex s.bytecode s.pc = some aa →
      pyIndex s.bytecode (s.pc + 1) = some bb →
      pyIndex s.bytecode (s.pc + 2) = some cc →
      s.registers.getReg bb = some (.arrv h) →
      s.arrays.get? h = some arr →
      ¬ (0 ≤ s.registers.get_int cc ∧ s.registers.get_int cc < arr.size) →
      execute_aget s =
        some { s with registers := s.registers.setReg aa (.intv 0),
                      warnCount := s.warnCount + 1, pc := s.pc + 3 } ∧
      execute_aput s =
        some { s with warnCount := s.warnCount + 1, pc := s.pc + 3 }) ∧
    (∀ (s : VMState) (aa bb cc h : Nat) (arr : DArray) (v : Value),
      pyIndex s.bytecode s.pc = some aa →
      pyIndex s.bytecode (s.pc + 1) = some bb →
      pyIndex s.bytecode (s.pc + 2) = some cc →
      s.registers.getReg bb = some (.arrv h) →
      s.arrays.get? h = some arr →
      0 ≤ s.registers.get_int cc →
      s.registers.get_int cc < arr.size →
      arr.data.get? (s.registers.get_int cc).toNat = some v →
      execute_aget s =
        some { s with registers := s.registers.setReg aa v, pc := s.pc + 3 } ∧
      execute_aput s =
        some { s with
          arrays := s.arrays.set h
            { arr with data := arr.data.set (s.registers.get_int cc).toNat (.intv (s.registers.get_int aa)) },
          pc := s.pc + 3 }) := by
  constructor
  · intro s aa bb cc h arr h1 h2 h3 h4 h5 hout
    have h5' : s.arrays[h]? = some arr := by simpa using h5
    constructor <;>
      simp [execute_aget, execute_aput, h1, h2, h3, h4, h5', hout]
  · intro s aa bb cc h arr v h1 h2 h3 h4 h5 hlo hhi hv
    have hin : 0 ≤ s.registers.get_int cc ∧ s.registers.get_int cc < arr.size := ⟨hlo, hhi⟩
    have h5' : s.arrays[h]? = some arr := by simpa using h5
    have hv' : arr.data[(s.registers.get_int cc).toNat]? = some v := by simpa using hv
    constructor <;>
      simp [execute_aget, execute_aput, h1, h2, h3, h4, h5', hin, hv']

/-- Witness for C5: index −1 and index `size` are warned and ignored on the
size-3 array; index 1 round-trips element 1. -/
theorem array_bounds_semantics_witness :
    execute_aget c5a =
      some { c5a with registers := c5a.registers.setReg 0 (.intv 0),
                      warnCount := c5a.warnCount + 1, pc := c5a.pc + 3 } ∧
    execute_aput c5b =
      some { c5b with warnCount := c5b.warnCount + 1, pc := c5b.pc + 3 } ∧
    execute_aget c5c =
      some { c5c with registers := c5c.registers.setReg 0 (.intv 20), pc := c5c.pc + 3 } :=
  ⟨(array_bounds_semantics.1 c5a 0 1 2 0 ⟨7, 3, [.intv 10, .intv 20, .intv 30]⟩
      rfl rfl rfl rfl rfl (by decide)).1,
   (array_bounds_semantics.1 c5b 0 1 2 0 ⟨7, 3, [.intv 10, .intv 20, .intv 30]⟩
      rfl rfl rfl rfl rfl (by decide)).2,
   (array_bounds_semantics.2 c5c 0 1 2 0 ⟨7, 3, [.intv 10, .intv 20, .intv 30]⟩
      (.intv 20) rfl rfl rfl rfl rfl (by decide) (by decide) rfl).1⟩

/-- **C10.** All `aput` variants share the single handler `execute_aput`,
and the value stored into an in-bounds element is the integer reading of
the source register: 0 whenever that register holds a non-integer value
(object, array, string, float, or null). -/
theorem aput_stores_int_reading :
    (execute_aput_object = execute_aput ∧ execute_aput_wide = execute_aput ∧
     execute_aput_boolean = execute_aput ∧ execute_aput_byte = execute_aput ∧
     execute_aput_char = execute_aput ∧ execute_aput_short = execute_aput) ∧
    (∀ (r : Regs) (i : Nat) (v : Value),
      r.regs.get? i = some v → (∀ n : Int, v ≠ .intv n) → r.get_int i = 0) ∧
    (∀ (s : VMState) (aa bb cc h : Nat) (arr : DArray) (v : Value),
      pyIndex s.bytecode s.pc = some aa →
      pyIndex s.bytecode (s.pc + 1) = some bb →
      pyIndex s.bytecode (s.pc + 2) = some cc →
      s.registers.getReg aa = some v →
      (∀ n : Int, v ≠ .intv n) →
      s.registers.getReg bb = some (.arrv h) →
      s.arrays.get? h = some arr →
      0 ≤ s.registers.get_int cc →
      s.registers.get_int cc < arr.size →
      execute_aput s =
        some { s with
          arrays := s.arrays.set h
            { arr with data := arr.data.set (s.registers.get_int cc).toNat (.intv 0) },
          pc := s.pc + 3 }) := by
  refine ⟨⟨rfl, rfl, rfl, rfl, rfl, rfl⟩, ?_, ?_⟩
  · intro r i v hv hni
    unfold Regs.get_int
    rw [hv]
    cases v with
    | intv n => exact absurd rfl (hni n)
    | none => rfl
    | floatv f => rfl
    | strv s => rfl
    | objv h => rfl
    | arrv h => rfl
  · intro s aa bb cc h arr v h1 h2 h3 hva hni h4 h5 hlo hhi
    have hz : s.registers.get_int aa = 0 := by
      unfold Regs.get_int
      unfold Regs.getReg at hva
      rw [hva]
      cases v with
      | intv n => exact absurd rfl (hni n)
      | none => rfl
      | floatv f => rfl
      | strv s => rfl
      | objv h => rfl
      | arrv h => rfl
    have hin : 0 ≤ s.registers.get_int cc ∧ s.registers.get_int cc < arr.size := ⟨hlo, hhi⟩
    have h5' : s.arrays[h]? = some arr := by simpa using h5
    simp [execute_aput, h1, h2, h3, h4, h5', hin, hz]

/-- Witness for C10: storing an object reference (`v0 = objv 5`) into
element 1 writes the integer 0 into the buffer. -/
theorem aput_stores_int_reading_witness :
    execute_aput c10a =
      some { c10a with
        arrays := c10a.arrays.set 0 ⟨7, 3, [.intv 10, .intv 20, .intv 30].set 1 (.intv 0)⟩,
        pc := c10a.pc + 3 } :=
  aput_stores_int_reading.2.2 c10a 0 1 2 0
    ⟨7, 3, [.intv 10, .intv 20, .intv 30]⟩ (.objv 5) rfl rfl rfl rfl
    (fun n hn => by cases hn) rfl rfl (by decide) (by decide)

/-- Behaviour of the fill loop for the decoded widths: when every payload
element in the window `[j, j+k)` decodes, the loop succeeds, preserves the
buffer length, writes the decoded values inside the window, and leaves
every other position untouched. -/
theorem fillElems_spec (bc : List Nat) (ds : Int) (w : Nat)
    (hw : w = 1 ∨ w = 2 ∨ w = 4) :
    ∀ (k j : Nat) (data : List Value),
      (∀ i : Nat, j ≤ i → i < j + k → ∃ v, payloadElem bc ds w i = some v) →
      ∃ res, fillElems bc ds w j k data = some res ∧
        res.length = data.length ∧
        (∀ i : Nat, i < data.length → j ≤ i → i < j + k →
          ∃ v, payloadElem bc ds w i = some v ∧ res.get? i = some (.intv v)) ∧
        (∀ i : Nat, i < j ∨ j + k ≤ i → res.get? i = data.get? i) := by
  intro k
  induction k with
  | zero =>
    intro j data _
    exact ⟨data, rfl, rfl, fun i _ h1 h2 => absurd h2 (by omega), fun i _ => rfl⟩
  | succ k ih =>
    intro j data hdec
    obtain ⟨v0, hv0⟩ := hdec j le_rfl (by omega)
    have hstep : ∃ data₁, data₁ = data.set j (.intv v0) ∧
        fillElems bc ds w j (k + 1) data = fillElems bc ds w (j + 1) k data₁ := by
      rcases hw with h | h | h <;> subst h
      · cases hpi : pyIndex bc (ds + (j : Int)) with
        | none => simp [payloadElem, hpi] at hv0
        | some b =>
          have hbv : (b : Int) = v0 := by simpa [payloadElem, hpi] using hv0
          exact ⟨data.set j (.intv v0), rfl, by simp [fillElems, hpi, hbv]⟩
      · have hv : v0 = leUnsigned (pySlice bc (ds + 2 * j) (ds + 2 * j + 2)) := by
          simpa [payloadElem] using hv0.symm
        exact ⟨data.set j (.intv v0), rfl, by simp [fillElems, hv]⟩
      · have hv : v0 = leSigned (pySlice bc (ds + 4 * j) (ds + 4 * j + 4)) := by
          simpa [payloadElem] using hv0.symm
        exact ⟨data.set j (.intv v0), rfl, by simp [fillElems, hv]⟩
    obtain ⟨data₁, hdata₁, hstep⟩ := hstep
    obtain ⟨res, hres, hlen, hin, hout⟩ := ih (j + 1) data₁
      (fun i hi1 hi2 => hdec i (by omega) (by omega))
    refine ⟨res, hstep.trans hres, ?_, ?_, ?_⟩
    · rw [hlen, hdata₁, List.length_set]
    · intro i hi hji hjk
      rcases Nat.eq_or_lt_of_le hji with heq | hlt
      · refine ⟨v0, heq ▸ hv0, ?_⟩
        rw [hout i (Or.inl (by omega)), hdata₁, ← heq]
        exact List.get?_set_eq_of_lt _ (heq ▸ hi)
      · exact hin i (by rw [hdata₁, List.length_set]; exact hi) hlt (by omega)
    · intro i hi
      rw [hout i (by omega), hdata₁, List.get?_set_ne _ _ (by omega)]

/-- For any element width other than 1, 2, 4 the fill loop does nothing. -/
theorem fillElems_other_width (bc : List Nat) (ds : Int) (w : Nat)
    (h1 : w ≠ 1) (h2 : w ≠ 2) (h4 : w ≠ 4) :
    ∀ (k j : Nat) (data : List Value), fillElems bc ds w j k data = some data := by
  intro k
  induction k with
  | zero => intro j data; rfl
  | succ k ih => intro j data; simp [fillElems, h1, h2, h4, ih]

/-- **C6** (counterexample).  Width 8 is a valid Dalvik payload width
(`long[]` initializers), but the handler decodes only widths 1, 2, 4: on a
well-formed width-8 payload whose first element is 42, the array element
stays 0 instead of becoming the first little-endian 8-byte integer of the
payload. -/
theorem fill_array_data_width8_counterexample :
    readU16 c6S.bytecode 6 = 0x0300 ∧
    readU16 c6S.bytecode 8 = 8 ∧
    leUnsigned (pySlice c6S.bytecode 10 14) = 1 ∧
    leUnsigned (pySlice c6S.bytecode 14 22) = 42 ∧
    execute_fill_array_data c6S = some { c6S with pc := 6 } ∧
    ((execute_fill_array_data c6S).bind
      (fun t => (t.arrays.get? 0).bind (fun a => a.data.get? 0))) = some (.intv 0) ∧
    Value.intv 0 ≠ Value.intv 42 := by
  refine ⟨by decide, by decide, by decide, by decide, by decide, by decide, by decide⟩

/-- **C6** (amended).  `new-array` builds a zero-filled buffer of the
declared size, and for payload element widths 1, 2 and 4 (the widths the
decoder handles) a `fill-array-data` with identifier `0x0300` and declared
size `n` equal to the array size makes element `i` the `i`-th little-endian
`w`-byte integer of the payload — unsigned for widths 1 and 2, signed for
width 4.  For any other width (in particular the valid Dalvik width 8) the
elements are left untouched. -/
theorem fill_array_data_le_amended :
    (∀ (s : VMState) (byte1 : Nat),
      pyIndex s.bytecode s.pc = some byte1 →
      execute_new_array s = some { s with
        arrays := s.arrays ++ [⟨readU16 s.bytecode (s.pc + 1),
          s.registers.get_int (byte1 / 16),
          List.replicate (s.registers.get_int (byte1 / 16)).toNat (.intv 0)⟩],
        registers := s.registers.setReg (byte1 % 16) (.arrv s.arrays.length),
        pc := s.pc + 3 }) ∧
    (∀ (s : VMState) (reg h n w : Nat) (arr : DArray) (pa : Int),
      pyIndex s.bytecode s.pc = some reg →
      s.registers.getReg reg = some (.arrv h) →
      s.arrays.get? h = some arr →
      arr.size = n →
      arr.data.length = n →
      pa = (s.pc - 1) + leSigned (pySlice s.bytecode (s.pc + 1) (s.pc + 5)) * 2 →
      ¬ (pa + 8 > (s.bytecode.length : Int)) →
      readU16 s.bytecode pa = 0x0300 →
      readU16 s.bytecode (pa + 2) = w →
      (w = 1 ∨ w = 2 ∨ w = 4) →
      leUnsigned (pySlice s.bytecode (pa + 4) (pa + 8)) = n →
      (∀ i : Nat, i < n → ∃ v, payloadElem s.bytecode (pa + 8) w i = some v) →
      ∃ data', execute_fill_array_data s =
          some { s with arrays := s.arrays.set h { arr with data := data' },
                        pc := s.pc + 5 } ∧
        data'.length = n ∧
        (∀ i : Nat, i < n →
          ∃ v, payloadElem s.bytecode (pa + 8) w i = some v ∧
            data'.get? i = some (.intv v))) ∧
    (∀ (s : VMState) (reg h w : Nat) (arr : DArray) (pa : Int),
      pyIndex s.bytecode s.pc = some reg →
      s.registers.getReg reg = some (.arrv h) →
      s.arrays.get? h = some arr →
      pa = (s.pc - 1) + leSigned (pySlice s.bytecode (s.pc + 1) (s.pc + 5)) * 2 →
      ¬ (pa + 8 > (s.bytecode.length : Int)) →
      readU16 s.bytecode pa = 0x0300 →
      readU16 s.bytecode (pa + 2) = w →
      w ≠ 1 → w ≠ 2 → w ≠ 4 →
      execute_fill_array_data s =
        some { s with arrays := s.arrays.set h { arr with data := arr.data },
                      pc := s.pc + 5 }) := by
  refine ⟨?_, ?_, ?_⟩
  · intro s byte1 h1
    simp [execute_new_array, h1]
  · intro s reg h n w arr pa h1 h2 h3 hsz hlen hpa hfit hident hw hwval hsize hdec
    subst hpa
    have h3' : s.arrays[h]? = some arr := by simpa using h3
    obtain ⟨res, hres, hreslen, hin, _⟩ :=
      fillElems_spec s.bytecode _ w hwval n 0 arr.data
        (fun i _ hi => hdec i (by omega))
    refine ⟨res, ?_, by rw [hreslen, hlen], ?_⟩
    · simp [execute_fill_array_data, h1, h2, h3', hfit, hident, hw, hsize,
        fillCount, hsz, hres]
    · intro i hi
      exact hin i (by rw [hlen]; exact hi) (Nat.zero_le i) (by omega)
  · intro s reg h w arr pa h1 h2 h3 hpa hfit hident hw hw1 hw2 hw4
    subst hpa
    have h3' : s.arrays[h]? = some arr := by simpa using h3
    simp [execute_fill_array_data, h1, h2, h3', hfit, hident, hw,
      fillElems_other_width s.bytecode _ w hw1 hw2 hw4]

/-- Witness for C6 (amended): width-2 payload `02 01 04 03` över a size-2
array yields elements 258 and 772. -/
theorem fill_array_data_le_amended_witness :
    ∃ data', execute_fill_array_data c6W =
        some { c6W with arrays := c6W.arrays.set 0 ⟨9, 2, data'⟩,
                        pc := c6W.pc + 5 } ∧
      data'.length = 2 ∧
      (∀ i : Nat, i < 2 →
        ∃ v, payloadElem c6W.bytecode (6 + 8) 2 i = some v ∧
          data'.get? i = some (.intv v)) :=
  fill_array_data_le_amended.2.1 c6W 0 0 2 2 ⟨9, 2, [.intv 0, .intv 0]⟩ 6
    rfl rfl rfl rfl rfl (by decide) (by decide) (by decide) (by decide)
    (Or.inr (Or.inl rfl)) (by decide)
    (fun i hi => ⟨leUnsigned (pySlice c6W.bytecode (6 + 8 + 2 * i) (6 + 8 + 2 * i + 2)),
      by simp [payloadElem]⟩)

/-- The decode result depends only on the input once the fuel covers the
input length. -/
theorem decodeMutf8Fuel_irrel :
    ∀ (f1 : Nat), ∀ (f2 : Nat) (l : List Nat), l.length ≤ f1 → l.length ≤ f2 →
      decodeMutf8Fuel f1 l = decodeMutf8Fuel f2 l := by
  intro f1
  induction f1 with
  | zero =>
    intro f2 l h1 _
    have : l = [] := List.eq_nil_of_length_eq_zero (Nat.le_zero.mp h1)
    subst this
    cases f2 <;> rfl
  | succ f1 ih =>
    intro f2 l h1 h2
    cases l with
    | nil => cases f2 <;> rfl
    | cons b1 rest =>
      cases f2 with
      | zero => simp at h2
      | succ f2 =>
        simp only [List.length_cons, Nat.succ_le_succ_iff] at h1 h2
        simp only [decodeMutf8Fuel]
        rcases rest with _ | ⟨b2, _ | ⟨b3, _ | ⟨b4, rest4⟩⟩⟩ <;>
          dsimp only <;>
          split_ifs <;>
          (try simp_all) <;>
          first
            | rfl
            | (apply ih <;> (try simp_all) <;> omega)

/-- Decoding an encoded BMP code point peels exactly that code point off,
whatever bytes follow. -/
theorem decode_encodeBMP (c : Nat) (hc : c < 65536) (bs : List Nat) :
    decodeMutf8 (mutf8EncodeBMP c ++ bs) = c :: decodeMutf8 bs := by
  have key : ∀ f : Nat, bs.length ≤ f →
      decodeMutf8Fuel (f + 1) (mutf8EncodeBMP c ++ bs) = c :: decodeMutf8Fuel f bs := by
    intro f hf
    rcases Nat.lt_or_ge c 128 with h80 | h80
    · rcases Nat.eq_zero_or_pos c with h0 | h0
      · subst h0
        cases bs <;> simp [mutf8EncodeBMP, decodeMutf8Fuel]
      · have h1 : ¬ c = 0 := by omega
        simp [mutf8EncodeBMP, decodeMutf8Fuel, h1, h80]
    · rcases Nat.lt_or_ge c 2048 with h800 | h800
      · have h1 : ¬ c = 0 := by omega
        have h2 : ¬ c < 128 := by omega
        have hb1 : ¬ (192 + c / 64 = 0) := by omega
        have hb2 : ¬ (192 + c / 64 < 128) := by omega
        have hb3 : ¬ (192 + c / 64 < 192) := by omega
        have hb4 : 192 + c / 64 < 224 := by omega
        have hb5 : ¬ (192 + c / 64 = 192 ∧ 128 + c % 64 = 128) := by omega
        simp only [mutf8EncodeBMP, if_neg h1, if_neg h2, if_pos h800, List.cons_append,
          List.nil_append, decodeMutf8Fuel, if_neg hb1, if_neg hb2, if_neg hb3, if_pos hb4,
          if_neg hb5]
        congr 1
        omega
      · have h1 : ¬ c = 0 := by omega
        have h2 : ¬ c < 128 := by omega
        have h3 : ¬ c < 2048 := by omega
        have hb1 : ¬ (224 + c / 4096 = 0) := by omega
        have hb2 : ¬ (224 + c / 4096 < 128) := by omega
        have hb3 : ¬ (224 + c / 4096 < 192) := by omega
        have hb4 : ¬ (224 + c / 4096 < 224) := by omega
        have hb5 : 224 + c / 4096 < 240 := by omega
        simp only [mutf8EncodeBMP, if_neg h1, if_neg h2, if_neg h3, List.cons_append,
          List.nil_append, decodeMutf8Fuel, if_neg hb1, if_neg hb2, if_neg hb3, if_neg hb4,
          if_pos hb5]
        congr 1
        omega
  have hlen : (mutf8EncodeBMP c ++ bs).length = (mutf8EncodeBMP c).length + bs.length := by
    simp
  have henc : 1 ≤ (mutf8EncodeBMP c).length := by
    unfold mutf8EncodeBMP
    split_ifs <;> simp
  unfold decodeMutf8
  rw [hlen]
  have hsplit : (mutf8EncodeBMP c).length + bs.length =
      ((mutf8EncodeBMP c).length + bs.length - 1) + 1 := by omega
  rw [hsplit, key _ (by omega), decodeMutf8Fuel_irrel _ bs.length bs (by omega) le_rfl]

/-- **C7** (counterexample).  The decoder never recombines surrogate pairs:
MUTF-8 encoding the supplementary code point U+10000 and decoding the bytes
yields the two surrogate code points `D800 DC00`, not the original
string. -/
theorem mutf8_roundtrip_counterexample :
    decodeMutf8 (mutf8Encode [65536]) = [0xD800, 0xDC00] ∧
    decodeMutf8 (mutf8Encode [65536]) ≠ [65536] := by
  constructor
  · decide
  · decide

/-- **C7** (amended).  MUTF-8 decode inverts MUTF-8 encode for every string
whose code points all lie in the Basic Multilingual Plane (below U+10000,
lone surrogates included); supplementary code points decode to their
surrogate pair instead. -/
theorem mutf8_roundtrip_amended :
    ∀ s : List Nat, (∀ c ∈ s, c < 65536) → decodeMutf8 (mutf8Encode s) = s := by
  intro s
  induction s with
  | nil => intro _; rfl
  | cons c s ih =>
    intro h
    have hc : c < 65536 := h c (List.mem_cons_self _ _)
    have hs : ∀ x ∈ s, x < 65536 := fun x hx => h x (List.mem_cons_of_mem _ hx)
    have he : mutf8Encode (c :: s) = mutf8EncodeChar c ++ mutf8Encode s := by
      simp [mutf8Encode]
    have hbmp : mutf8EncodeChar c = mutf8EncodeBMP c := by
      simp [mutf8EncodeChar, hc]
    rw [he, hbmp, decode_encodeBMP c hc, ih hs]

/-- Witness for C7 (amended): the BMP string `[72, 0, 65535]` (`H`, the
MUTF-8 two-byte null, and U+FFFF) round-trips. -/
theorem mutf8_roundtrip_amended_witness :
    decodeMutf8 (mutf8Encode [72, 0, 65535]) = [72, 0, 65535] :=
  mutf8_roundtrip_amended [72, 0, 65535] (by decide)

/-! ### Slicer lemmas -/

theorem mem_insertAsc {x y : Nat} : ∀ {l : List Nat}, x ∈ insertAsc y l ↔ x = y ∨ x ∈ l := by
  intro l
  induction l with
  | nil => simp [insertAsc]
  | cons a t ih =>
    simp only [insertAsc]
    split_ifs with h
    · simp
    · simp only [List.mem_cons, ih]
      tauto

theorem mem_sortAsc {x : Nat} : ∀ {l : List Nat}, x ∈ sortAsc l ↔ x ∈ l := by
  intro l
  induction l with
  | nil => simp [sortAsc]
  | cons a t ih =>
    show x ∈ insertAsc a (sortAsc t) ↔ _
    rw [mem_insertAsc, ih]
    simp

theorem prevInvoke_mem {s : List Nat} {t : Nat → String} {pc p : Nat}
    (h : prevInvoke s t pc = some p) : p ∈ s := by
  have hm := List.mem_of_find?_eq_some h
  rw [List.mem_reverse, List.mem_filter] at hm
  exact hm.1

theorem fwdFillArray_mem {s : List Nat} {t : Nat → String} {pc w p : Nat}
    (h : fwdFillArray s t pc w = some p) : p ∈ s := by
  have hm := List.mem_of_find?_eq_some h
  rw [List.mem_filter] at hm
  exact hm.1

theorem fwdInitInvoke_mem {s : List Nat} {t : Nat → String} {pc w p : Nat}
    (h : fwdInitInvoke s t pc w = some p) : p ∈ s := by
  have hm := List.mem_of_find?_eq_some h
  rw [List.mem_filter] at hm
  exact hm.1

theorem classifyConst_extras (parts : List String) : (classifyConst parts).extras = [] := by
  unfold classifyConst
  split <;> rfl

theorem classifyMove_extras (parts : List String) : (classifyMove parts).extras = [] := by
  unfold classifyMove
  split <;> rfl

theorem classifyAget_extras (parts : List String) : (classifyAget parts).extras = [] := by
  unfold classifyAget
  split <;> rfl

theorem classifyCheckCast_extras (parts : List String) :
    (classifyCheckCast parts).extras = [] := by
  unfold classifyCheckCast
  split <;> (try split) <;> rfl

theorem classifyBinop2addr_extras (parts : List String) :
    (classifyBinop2addr parts).extras = [] := by
  unfold classifyBinop2addr
  split <;> (try split) <;> rfl

theorem classifyBinop3_extras (parts : List String) :
    (classifyBinop3 parts).extras = [] := by
  unfold classifyBinop3
  split <;> rfl

theorem classifyMoveResult_extras {sorted : List Nat} {t : Nat → String} {pc : Nat}
    {parts : List String} {e : Nat}
    (he : e ∈ (classifyMoveResult sorted t pc parts).extras) : e ∈ sorted := by
  unfold classifyMoveResult at he
  repeat' split at he
  all_goals simp_all
  exact prevInvoke_mem (by assumption)

theorem classifyNewArray_extras {sorted : List Nat} {t : Nat → String} {pc : Nat}
    {parts : List String} {e : Nat}
    (he : e ∈ (classifyNewArray sorted t pc parts).extras) : e ∈ sorted := by
  unfold classifyNewArray at he
  split at he
  · rename_i p0 p1 p2 tl
    rcases hvw : vRegNum (stripCommas p1) with _ | w
    · simp [hvw] at he
    · simp only [hvw, Option.mem_toList, Option.mem_def] at he
      exact fwdFillArray_mem he
  · simp at he

theorem classifyNewInstance_extras {sorted : List Nat} {t : Nat → String} {pc : Nat}
    {parts : List String} {e : Nat}
    (he : e ∈ (classifyNewInstance sorted t pc parts).extras) : e ∈ sorted := by
  unfold classifyNewInstance at he
  repeat' split at he
  all_goals simp_all
  exact fwdInitInvoke_mem (by assumption)

set_option maxHeartbeats 1000000 in
theorem classifyOpTail_extras_mem (sorted : List Nat) (t : Nat → String) (pc : Nat)
    (opcode : String) (parts : List String) :
    ∀ e ∈ (classifyOpTail sorted t pc opcode parts).extras, e ∈ sorted := by
  intro e
  unfold classifyOpTail
  repeat' split
  all_goals intro he
  all_goals
    first
      | exact classifyNewArray_extras he
      | exact classifyNewInstance_extras he
      | simp [classifyMove_extras, classifyCheckCast_extras, classifyBinop2addr_extras,
          classifyBinop3_extras] at he

set_option maxHeartbeats 1000000 in
theorem classifyOp_extras_mem (sorted : List Nat) (t : Nat → String) (pc : Nat)
    (opcode : String) (parts : List String) :
    ∀ e ∈ (classifyOp sorted t pc opcode parts).extras, e ∈ sorted := by
  intro e
  unfold classifyOp
  repeat' split
  all_goals intro he
  all_goals
    first
      | exact classifyMoveResult_extras he
      | exact classifyOpTail_extras_mem sorted t pc opcode parts e he
      | simp [classifyConst_extras, classifyMove_extras, classifyAget_extras] at he

theorem classify_extras_mem (sorted : List Nat) (t : Nat → String) (pc : Nat)
    (instr : String) : ∀ e ∈ (classify sorted t pc instr).extras, e ∈ sorted := by
  intro e he
  unfold classify classifyParts at he
  cases hps : pySplit instr with
  | nil => rw [hps] at he; simp at he
  | cons opcode rest =>
    rw [hps] at he
    exact classifyOp_extras_mem sorted t pc opcode (opcode :: rest) e he

theorem classify_written_none_of_empty (sorted : List Nat) (t : Nat → String)
    (pc : Nat) (instr : String) (h : (pySplit instr).isEmpty = true) :
    (classify sorted t pc instr).written = Option.none := by
  rw [List.isEmpty_iff] at h
  unfold classify classifyParts
  rw [h]

theorem processPC_deps_subset (sorted : List Nat) (t : Nat → String)
    (st : SliceState) (pc : Nat) : st.deps ⊆ (processPC sorted t st pc).deps := by
  unfold processPC
  dsimp only
  split_ifs with h
  · exact Finset.Subset.refl _
  · split
    · split_ifs
      · exact fun x hx => Finset.mem_insert_of_mem (Finset.mem_union_left _ hx)
      · exact Finset.subset_union_left
    · exact Finset.subset_union_left

theorem foldl_deps_mono (sorted : List Nat) (t : Nat → String) :
    ∀ (L : List Nat) (st : SliceState),
      st.deps ⊆ (L.foldl (processPC sorted t) st).deps := by
  intro L
  induction L with
  | nil => intro st; exact Finset.Subset.refl _
  | cons p L ih =>
    intro st
    simp only [List.foldl_cons]
    exact (processPC_deps_subset sorted t st p).trans (ih _)

theorem foldl_deps_subset (sorted : List Nat) (t : Nat → String) :
    ∀ (L : List Nat) (st : SliceState),
      (∀ e ∈ st.deps, e ∈ sorted) → (∀ p ∈ L, p ∈ sorted) →
      ∀ e ∈ (L.foldl (processPC sorted t) st).deps, e ∈ sorted := by
  intro L
  induction L with
  | nil => intro st hst _ e he; exact hst e he
  | cons p L ih =>
    intro st hst hL e he
    simp only [List.foldl_cons] at he
    refine ih _ ?_ (fun q hq => hL q (List.mem_cons_of_mem _ hq)) e he
    intro x hx
    revert hx
    unfold processPC
    dsimp only
    split_ifs
    · exact fun hx => hst x hx
    · split
      · split_ifs
        · intro hx
          rcases Finset.mem_insert.mp hx with h | h
          · exact h ▸ hL p (List.mem_cons_self _ _)
          · rcases Finset.mem_union.mp h with h | h
            · exact hst x h
            · exact classify_extras_mem sorted t p (t p) x (List.mem_toFinset.mp h)
        · intro hx
          rcases Finset.mem_union.mp hx with h | h
          · exact hst x h
          · exact classify_extras_mem sorted t p (t p) x (List.mem_toFinset.mp h)
      · intro hx
        rcases Finset.mem_union.mp hx with h | h
        · exact hst x h
        · exact classify_extras_mem sorted t p (t p) x (List.mem_toFinset.mp h)

theorem processPC_needed_pres (sorted : List Nat) (t : Nat → String)
    (st : SliceState) (pc r : Nat) (hr : r ∈ st.needed)
    (hw : ¬ (classify sorted t pc (t pc)).written = some r) :
    r ∈ (processPC sorted t st pc).needed := by
  unfold processPC
  dsimp only
  split_ifs
  · exact hr
  · split
    · rename_i w hsome
      split_ifs
      · apply Finset.mem_union_left
        refine Finset.mem_erase.mpr ⟨?_, hr⟩
        intro hrw
        exact hw (hrw ▸ hsome)
      · exact hr
    · exact hr

theorem processPC_writes (sorted : List Nat) (t : Nat → String)
    (st : SliceState) (pc w : Nat)
    (hw : (classify sorted t pc (t pc)).written = some w) (hn : w ∈ st.needed) :
    processPC sorted t st pc =
      ⟨(st.needed.erase w) ∪ (classify sorted t pc (t pc)).reads.toFinset,
       insert pc (st.deps ∪ (classify sorted t pc (t pc)).extras.toFinset)⟩ := by
  have hne : ¬ (pySplit (t pc)).isEmpty = true := by
    intro h
    rw [classify_written_none_of_empty sorted t pc (t pc) h] at hw
    cases hw
  unfold processPC
  dsimp only
  rw [if_neg hne]
  split
  · rename_i w' heq
    rw [hw] at heq
    cases heq
    rw [if_pos hn]
  · rename_i heq
    rw [hw] at heq
    cases heq

theorem foldl_writer_mem (sorted : List Nat) (t : Nat → String) :
    ∀ (L : List Nat) (st : SliceState) (r q : Nat), r ∈ st.needed →
      L.find? (fun p => (classify sorted t p (t p)).written = some r) = some q →
      q ∈ (L.foldl (processPC sorted t) st).deps := by
  intro L
  induction L with
  | nil => intro st r q _ hf; cases hf
  | cons p L ih =>
    intro st r q hr hf
    rw [List.find?_cons] at hf
    simp only [List.foldl_cons]
    by_cases hp : (classify sorted t p (t p)).written = some r
    · have hqp : p = q := by simpa [hp] using hf
      subst hqp
      rw [processPC_writes sorted t st p r hp hr]
      exact foldl_deps_mono sorted t L _ (Finset.mem_insert_self _ _)
    · have hf' :
          L.find? (fun p => (classify sorted t p (t p)).written = some r) = some q := by
        simpa [hp] using hf
      exact ih _ r q (processPC_needed_pres sorted t st p r hr hp) hf'

theorem split_at_first (pc : Nat) : ∀ (l : List Nat), pc ∈ l →
    l = l.takeWhile (fun x => x ≠ pc) ++ pc :: (l.dropWhile (fun x => x ≠ pc)).tail := by
  intro l
  induction l with
  | nil => intro h; cases h
  | cons a l ih =>
    intro h
    by_cases ha : a = pc
    · subst ha
      simp [List.takeWhile_cons, List.dropWhile_cons]
    · have h' : pc ∈ l := by
        rcases List.mem_cons.mp h with h | h
        · exact absurd h.symm ha
        · exact h
      simp only [List.takeWhile_cons, List.dropWhile_cons, ha, decide_not,
        decide_False, Bool.not_false, if_true, reduceIte]
      simp only [decide_not] at ih
      rw [List.cons_append, ← ih h']

theorem build_deps_empty (tm : TraceMap) (targetPc : Nat) (argRegs : List Nat)
    (h : (sliceSortedPcs tm targetPc).isEmpty = true) :
    build_register_dependencies tm targetPc argRegs = ∅ := by
  unfold build_register_dependencies
  unfold sliceSortedPcs at h
  dsimp only
  rw [if_pos h]

theorem build_deps_eq (tm : TraceMap) (targetPc : Nat) (argRegs : List Nat)
    (h : ¬ (sliceSortedPcs tm targetPc).isEmpty = true) :
    build_register_dependencies tm targetPc argRegs =
      (((sliceSortedPcs tm targetPc).reverse).foldl
        (processPC (sliceSortedPcs tm targetPc) (traceOfMap tm))
        ⟨argRegs.toFinset, ∅⟩).deps := by
  unfold build_register_dependencies
  unfold sliceSortedPcs at h ⊢
  dsimp only
  rw [if_neg h]

/-- C9 counterexample: in the trace `new-instance v0` (pc 0); `const/16 v1`
(pc 2); `invoke-direct v0, v1, LFoo;-><init>(I)V` (pc 4), sliced at target
pc 8 for argument register `v0`, the slicer returns exactly `{0, 4}`.  The
slicer itself records the constructor argument `v1` as a read of pc 0 (the
`new-instance` forward lookup) and classifies pc 2 as writing `v1`, yet
pc 2 is not in the output: the walk is already past pc 2 when `v1` becomes
needed, so the output is not closed under the constructor-argument
dependency the slicer claims to handle. -/
theorem slicer_forward_read_gap_counterexample :
    build_register_dependencies c9TM 8 [0] = {0, 4} ∧
    (classify (sliceSortedPcs c9TM 8) (traceOfMap c9TM) 0 (traceOfMap c9TM 0)).reads
      = [1] ∧
    (classify (sliceSortedPcs c9TM 8) (traceOfMap c9TM) 2 (traceOfMap c9TM 2)).written
      = some 1 ∧
    2 ∉ build_register_dependencies c9TM 8 [0] := by
  decide

/-- C9 (amended): the slicer's output contains only trace-map keys strictly
below the target PC, and the closure holds in the restricted form the
backward walk implements: whenever the walk reaches a PC whose instruction
writes a register needed at that point, that PC joins the output, and for
each register that instruction reads, the nearest earlier writer in the
remaining walk (when one exists) joins the output as well.  Read registers
attached to a *forward*-looked-up instruction (the constructor arguments of
`new-instance`) are resolved only among PCs strictly before the triggering
instruction, so a writer between the trigger and the forward target is
missed. -/
theorem slicer_subset_and_closure (tm : TraceMap) (targetPc : Nat)
    (argRegs : List Nat) :
    (∀ p ∈ build_register_dependencies tm targetPc argRegs,
        p ∈ tm.map Prod.fst ∧ p < targetPc) ∧
    (∀ pc ∈ sliceSortedPcs tm targetPc, ∀ w,
      (classify (sliceSortedPcs tm targetPc) (traceOfMap tm) pc
          (traceOfMap tm pc)).written = some w →
      w ∈ (sliceStateAt tm targetPc argRegs pc).needed →
      pc ∈ build_register_dependencies tm targetPc argRegs ∧
      (∀ r ∈ (classify (sliceSortedPcs tm targetPc) (traceOfMap tm) pc
                (traceOfMap tm pc)).reads,
        ∀ q, lastWriterBefore (sliceSortedPcs tm targetPc) (traceOfMap tm) r pc
              = some q →
          q ∈ build_register_dependencies tm targetPc argRegs)) := by
  constructor
  · intro p hp
    by_cases hemp : (sliceSortedPcs tm targetPc).isEmpty = true
    · rw [build_deps_empty tm targetPc argRegs hemp] at hp
      exact absurd hp (Finset.not_mem_empty p)
    · rw [build_deps_eq tm targetPc argRegs hemp] at hp
      have hmem : p ∈ sliceSortedPcs tm targetPc := by
        refine foldl_deps_subset _ _ _ _ ?_ ?_ p hp
        · intro e he
          exact absurd he (Finset.not_mem_empty e)
        · intro q hq
          exact List.mem_reverse.mp hq
      have hfil : p ∈ (tm.map Prod.fst).filter (· < targetPc) := mem_sortAsc.mp hmem
      rw [List.mem_filter] at hfil
      exact ⟨hfil.1, by simpa using hfil.2⟩
  · intro pc hpc w hw hn
    have hemp : ¬ (sliceSortedPcs tm targetPc).isEmpty = true := by
      intro h
      rw [List.isEmpty_iff] at h
      rw [h] at hpc
      cases hpc
    rw [build_deps_eq tm targetPc argRegs hemp]
    have hrev : pc ∈ (sliceSortedPcs tm targetPc).reverse := List.mem_reverse.mpr hpc
    have hdec := split_at_first pc (sliceSortedPcs tm targetPc).reverse hrev
    rw [hdec, List.foldl_append, List.foldl_cons]
    have hst : ((sliceSortedPcs tm targetPc).reverse.takeWhile
        (fun x => x ≠ pc)).foldl
          (processPC (sliceSortedPcs tm targetPc) (traceOfMap tm))
          ⟨argRegs.toFinset, ∅⟩ = sliceStateAt tm targetPc argRegs pc := rfl
    rw [hst, processPC_writes (sliceSortedPcs tm targetPc) (traceOfMap tm)
      (sliceStateAt tm targetPc argRegs pc) pc w hw hn]
    constructor
    · exact foldl_deps_mono _ _ _ _ (Finset.mem_insert_self _ _)
    · intro r hr q hq
      refine foldl_writer_mem _ _ _ _ r q ?_ hq
      exact Finset.mem_union_right _ (List.mem_toFinset.mpr hr)

/-- The amended slicer property at the straight-line trace
`const/16 v1` ; `add-int v0, v1, v1`, sliced at pc 4 for `v0`: pc 2 writes
the needed `v0` and joins the output, and the last writer of its read
register `v1` (pc 0) joins the output too. -/
theorem slicer_subset_and_closure_witness :
    (2 ∈ c9TM2.map Prod.fst ∧ 2 < 4) ∧
    2 ∈ build_register_dependencies c9TM2 4 [0] ∧
    0 ∈ build_register_dependencies c9TM2 4 [0] := by
  have h := slicer_subset_and_closure c9TM2 4 [0]
  have h2 := h.2 2 (by decide) 0 (by decide) (by decide)
  exact ⟨h.1 2 (by decide), h2.1, h2.2 1 (by decide) 0 (by decide)⟩

/-! ### Step-cap lemmas -/

theorem execLoopAux_le (table : Nat → Option (Machine → Option Machine)) :
    ∀ (fuel : Nat) (m mach : Machine) (used : Nat),
      execLoopAux table fuel m = some (mach, used) → used ≤ fuel := by
  intro fuel
  induction fuel with
  | zero =>
    intro m mach used h
    simp only [execLoopAux, Option.some.injEq, Prod.mk.injEq] at h
    omega
  | succ fuel ih =>
    intro m mach used h
    by_cases h1 : m.vm.pc < (m.vm.bytecode.length : Int)
    · by_cases h2 : m.vm.finished = true
      · simp only [execLoopAux, if_pos h1, if_pos h2, Option.some.injEq,
          Prod.mk.injEq] at h
        omega
      · cases hop : pyIndex m.vm.bytecode m.vm.pc with
        | none =>
          simp only [execLoopAux, if_pos h1, if_neg h2, hop] at h
          cases h
        | some op =>
          cases htab : table op with
          | none =>
            simp only [execLoopAux, if_pos h1, if_neg h2, hop, htab,
              Option.some.injEq, Prod.mk.injEq] at h
            omega
          | some hdl =>
            cases hrun : hdl { m with vm := { m.vm with pc := m.vm.pc + 1 } } with
            | none =>
              simp only [execLoopAux, if_pos h1, if_neg h2, hop, htab, hrun] at h
              cases h
            | some m2 =>
              cases hrec : execLoopAux table fuel m2 with
              | none =>
                simp only [execLoopAux, if_pos h1, if_neg h2, hop, htab, hrun,
                  hrec] at h
                cases h
              | some pr =>
                obtain ⟨m3, u⟩ := pr
                simp only [execLoopAux, if_pos h1, if_neg h2, hop, htab, hrun,
                  hrec, Option.some.injEq, Prod.mk.injEq] at h
                have := ih _ _ _ hrec
                omega
    · simp only [execLoopAux, if_neg h1, Option.some.injEq, Prod.mk.injEq] at h
      omega

theorem clinitLoopAux_le (table : Nat → Option (Machine → Option Machine)) :
    ∀ (fuel : Nat) (m mach : Machine) (used : Nat),
      clinitLoopAux table fuel m = some (mach, used) → used ≤ fuel := by
  intro fuel
  induction fuel with
  | zero =>
    intro m mach used h
    simp only [clinitLoopAux, Option.some.injEq, Prod.mk.injEq] at h
    omega
  | succ fuel ih =>
    intro m mach used h
    by_cases h1 : m.vm.pc < (m.vm.bytecode.length : Int)
    · cases hop : pyIndex m.vm.bytecode m.vm.pc with
      | none =>
        simp only [clinitLoopAux, if_pos h1, hop] at h
        cases h
      | some op =>
        by_cases hz : op = 0x0e
        · simp only [clinitLoopAux, if_pos h1, hop, if_pos hz, Option.some.injEq,
            Prod.mk.injEq] at h
          omega
        · cases htab : table op with
          | none =>
            simp only [clinitLoopAux, if_pos h1, hop, if_neg hz, htab,
              Option.some.injEq, Prod.mk.injEq] at h
            omega
          | some hdl =>
            cases hrun : hdl { m with vm := { m.vm with pc := m.vm.pc + 1 } } with
            | none =>
              simp only [clinitLoopAux, if_pos h1, hop, if_neg hz, htab, hrun] at h
              cases h
            | some m2 =>
              cases hrec : clinitLoopAux table fuel m2 with
              | none =>
                simp only [clinitLoopAux, if_pos h1, hop, if_neg hz, htab, hrun,
                  hrec] at h
                cases h
              | some pr =>
                obtain ⟨m3, u⟩ := pr
                simp only [clinitLoopAux, if_pos h1, hop, if_neg hz, htab, hrun,
                  hrec, Option.some.injEq, Prod.mk.injEq] at h
                have := ih _ _ _ hrec
                omega
    · simp only [clinitLoopAux, if_neg h1, Option.some.injEq, Prod.mk.injEq] at h
      omega

theorem execLoopAux_fixed (table : Nat → Option (Machine → Option Machine))
    (m : Machine)
    (hpc : m.vm.pc < (m.vm.bytecode.length : Int))
    (hfin : ¬ m.vm.finished = true)
    (hstep : ∃ op h, pyIndex m.vm.bytecode m.vm.pc = some op ∧ table op = some h ∧
      h { m with vm := { m.vm with pc := m.vm.pc + 1 } } = some m) :
    ∀ fuel, execLoopAux table fuel m = some (m, fuel) := by
  intro fuel
  induction fuel with
  | zero => rfl
  | succ fuel ih =>
    obtain ⟨op, h, hop, htab, hh⟩ := hstep
    simp only [execLoopAux, if_pos hpc, if_neg hfin, hop, htab, hh, ih]

theorem execLoopAux_step (table : Nat → Option (Machine → Option Machine))
    (m m2 : Machine) (op : Nat) (hdl : Machine → Option Machine)
    (hpc : m.vm.pc < (m.vm.bytecode.length : Int))
    (hfin : ¬ m.vm.finished = true)
    (hop : pyIndex m.vm.bytecode m.vm.pc = some op)
    (htab : table op = some hdl)
    (hh : hdl { m with vm := { m.vm with pc := m.vm.pc + 1 } } = some m2) :
    ∀ fuel, execLoopAux table (fuel + 1) m =
      match execLoopAux table fuel m2 with
      | Option.none => Option.none
      | some (m3, u) => some (m3, u + 1) := by
  intro fuel
  simp only [execLoopAux, if_pos hpc, if_neg hfin, hop, htab, hh]

theorem c8_run (env : HookEnv) (loader : LoaderK) :
    execLoopAux (handlersFor env loader) 5000 c8M0 = some (c8MG, 5000) := by
  have hfix : ∀ fuel, execLoopAux (handlersFor env loader) fuel c8MG
      = some (c8MG, fuel) := by
    apply execLoopAux_fixed
    · decide
    · decide
    · exact ⟨0x28, liftVM execute_goto, rfl, rfl, rfl⟩
  have h1 := execLoopAux_step (handlersFor env loader) c8M0 c8MG 0x24
    (liftVM execute_filled_new_array) (by decide) (by decide) rfl rfl rfl 4999
  rw [show (5000 : Nat) = 4999 + 1 from rfl, h1, hfix 4999]

theorem execMethod_result (env : HookEnv) (p : Program) (recur : RecurK)
    (mr : MethodRec) (args : List Value) (st : Store) (ev : List Event)
    (bc : List Nat) (rs : Nat) (tm : TraceMap) (mach : Machine) (used : Nat)
    (hcode : mr.code? = some (bc, rs, tm))
    (hinit : st.isInit mr.className = true)
    (hrun : execLoopAux (handlersFor env (fun tr idx as stx evx =>
        recur (.resolve tr idx as) stx evx)) 5000
        ⟨{ mkVM bc rs tm with
            registers := loadArgs (mkVM bc rs tm).registers (rs - args.length) args },
          st, ev⟩ = some (mach, used)) :
    loaderRunStep env p recur (.execMethod mr args) st ev =
      some ((match mach.vm.lastResult with
             | some v => v
             | Option.none => Value.none), mach.store, mach.events) := by
  simp only [loaderRunStep, hcode, if_pos hinit, hrun]

/-- C8 counterexample: the method `c8BC` (`filled-new-array` of zero
registers, then a self-targeting `goto`) runs for exactly 5000 handler
dispatches under any hook environment; the cap stops it while its pc still
points inside the bytecode with the finished flag unset, and
`execute_method` then returns the array reference sitting in the
last-result slot — not a null result as if the method had returned void. -/
theorem step_cap_nonnull_result_counterexample :
    execLoopAux (handlersFor noHooks nullLoader) 5000 c8M0 = some (c8MG, 5000) ∧
    c8MG.vm.pc < (c8MG.vm.bytecode.length : Int) ∧
    c8MG.vm.finished = false ∧
    loaderRunStep noHooks c8P nullRecur (.execMethod c8MR []) c8St [] =
      some (Value.arrv 0, c8St, ([] : List Event)) ∧
    Value.arrv 0 ≠ Value.none := by
  refine ⟨c8_run noHooks nullLoader, by decide, rfl, ?_, by decide⟩
  exact execMethod_result noHooks c8P nullRecur c8MR [] c8St [] c8BC 1 [] c8MG
    5000 rfl rfl
    (c8_run noHooks (fun tr idx as stx evx => nullRecur (.resolve tr idx as) stx evx))

/-- C8 (amended): both execution loops dispatch at most `fuel` handlers —
5000 where `execute_method` instantiates the loop, 500 where `_run_clinit`
does — so every single-method execution is bounded by its per-method step
cap and halts; but the result of a capped method is the value in the
last-result slot at that moment (null only when the slot is empty), not a
void/null result. -/
theorem step_caps_amended :
    (∀ (table : Nat → Option (Machine → Option Machine)) (fuel : Nat)
        (m mach : Machine) (used : Nat),
        execLoopAux table fuel m = some (mach, used) → used ≤ fuel) ∧
    (∀ (table : Nat → Option (Machine → Option Machine)) (fuel : Nat)
        (m mach : Machine) (used : Nat),
        clinitLoopAux table fuel m = some (mach, used) → used ≤ fuel) ∧
    (∀ (env : HookEnv) (p : Program) (recur : RecurK) (mr : MethodRec)
        (args : List Value) (st : Store) (ev : List Event)
        (bc : List Nat) (rs : Nat) (tm : TraceMap) (mach : Machine) (used : Nat),
        mr.code? = some (bc, rs, tm) →
        st.isInit mr.className = true →
        execLoopAux (handlersFor env (fun tr idx as stx evx =>
            recur (.resolve tr idx as) stx evx)) 5000
            ⟨{ mkVM bc rs tm with
                registers := loadArgs (mkVM bc rs tm).registers (rs - args.length) args },
              st, ev⟩ = some (mach, used) →
        used ≤ 5000 ∧
        loaderRunStep env p recur (.execMethod mr args) st ev =
          some ((match mach.vm.lastResult with
                 | some v => v
                 | Option.none => Value.none), mach.store, mach.events)) := by
  refine ⟨execLoopAux_le, clinitLoopAux_le, ?_⟩
  intro env p recur mr args st ev bc rs tm mach used hcode hinit hrun
  exact ⟨execLoopAux_le _ _ _ _ _ hrun,
    execMethod_result env p recur mr args st ev bc rs tm mach used hcode hinit hrun⟩

/-- The amended step-cap property at concrete runs: an empty dispatch table
stops both loops after the opcode fetch (0 dispatches), and the
`return-void` method `c8RVMR` finishes in one dispatch with a null result. -/
theorem step_caps_amended_witness :
    0 ≤ 5000 ∧ 0 ≤ 500 ∧
    (1 ≤ 5000 ∧
     loaderRunStep noHooks c8P (loaderRun noHooks c8P 0) (.execMethod c8RVMR [])
        c8St [] = some (Value.none, c8St, ([] : List Event))) := by
  have h := step_caps_amended
  refine ⟨?_, ?_, ?_⟩
  · exact h.1 (fun _ => Option.none) 5000
      ⟨mkVM [0x0e] 1 [], c8St, []⟩ ⟨{ mkVM [0x0e] 1 [] with pc := 1 }, c8St, []⟩ 0 rfl
  · exact h.2.1 (fun _ => Option.none) 500
      ⟨mkVM [0x0e] 1 [], c8St, []⟩ ⟨{ mkVM [0x0e] 1 [] with pc := 1 }, c8St, []⟩ 0 rfl
  · exact h.2.2 noHooks c8P (loaderRun noHooks c8P 0) c8RVMR [] c8St [] [0x0e] 1 []
      c8MV 1 rfl rfl rfl

/-- C1: refuted by the code — `_run_clinit` marks the class in the
initialization-attempted set only *after* its 500-step execution loop, so
nothing is marked while the `<clinit>` bytecode runs.  For class `LC;`
whose `<clinit>` invokes the static method `LC;->m()V`, `execute_method`
for `m` finds `LC;` still unmarked and re-enters `_run_clinit("LC;")`: in
the ghost event log the `<clinit>` of `LC;` *starts* four times in a row
before the first mark is recorded (at recursion budget 12), and one more
time for each three extra budget levels (five at budget 15) — the
recursion the attempted set was supposed to prevent is unbounded, and the
`<clinit>` does not run at most once per analysis run. -/
theorem clinit_marked_after_execution_code_bug :
    (loaderRun noHooks c1P 12 (.clinit "LC;") emptyStore []).map
        (fun r => (r.2.2.filter (fun e => e = Event.clinitStart "LC;")).length)
      = some 4 ∧
    (loaderRun noHooks c1P 12 (.clinit "LC;") emptyStore []).map
        (fun r => r.2.2.take 4) =
      some [Event.clinitStart "LC;", Event.clinitStart "LC;",
            Event.clinitStart "LC;", Event.clinitStart "LC;"] ∧
    (loaderRun noHooks c1P 15 (.clinit "LC;") emptyStore []).map
        (fun r => (r.2.2.filter (fun e => e = Event.clinitStart "LC;")).length)
      = some 5 := by
  decide

/-- C2 counterexample: under an environment where every hook table
matches, the virtual handler resolves via the *user* hook (value 1) even
though the framework table matches — not framework first; the static
handler resolves via the *built-in* (value 3) even though the framework
table matches — not framework first; and the range handler produces a null
result even though the framework virtual table matches — ranges consult no
framework or user hooks at all. -/
theorem invoke_dispatch_order_counterexample :
    (executeInvokeVirtual c2Env nullLoader c2MV0 = some c2MV1 ∧
     c2MV1.events = [Event.dispatchedVirtual Stage.user] ∧
     c2MV1.vm.lastResult = some (Value.intv 1) ∧
     (c2Env.androidVirtualHook "").isSome = true) ∧
    (executeInvokeStatic c2Env nullLoader c2MS0 = some c2MS1 ∧
     c2MS1.events = [Event.dispatchedStatic Stage.builtin] ∧
     (c2Env.androidStaticHook "").isSome = true) ∧
    (executeInvokeVirtualRange c2EnvR nullLoader c2MV0 = some c2MR1 ∧
     c2MR1.events = [Event.dispatchedVirtual Stage.nullResult] ∧
     (c2EnvR.androidVirtualHook "").isSome = true) :=
  ⟨⟨rfl, rfl, rfl, rfl⟩, ⟨rfl, rfl, rfl⟩, ⟨rfl, rfl, rfl⟩⟩

theorem executeInvokeStatic_stage (env : HookEnv) (loader : LoaderK)
    (m m' : Machine) (methodIdx : Nat) (args : List Value)
    (hdec : decodeInvokeArgs m.vm = some (methodIdx, args))
    (hrun : executeInvokeStatic env loader m = some m') :
    m'.events.getLast? = some (Event.dispatchedStatic
      (staticStageFor env m methodIdx args
        (traceLookup m.vm.traceMap (m.vm.pc - 1)))) := by
  unfold executeInvokeStatic at hrun
  simp only [hdec] at hrun
  cases hb : env.builtinStatic args (traceLookup m.vm.traceMap (m.vm.pc - 1)) with
  | some rv =>
    simp only [hb, Option.some.injEq] at hrun
    subst hrun
    simp [staticStageFor, hb, List.getLast?_concat]
  | none =>
    simp only [hb] at hrun
    cases ha : env.androidStaticHook (traceLookup m.vm.traceMap (m.vm.pc - 1)) with
    | some hook =>
      simp only [ha, Option.some.injEq] at hrun
      subst hrun
      simp [staticStageFor, hb, ha, List.getLast?_concat]
    | none =>
      simp only [ha] at hrun
      cases hus : (if m.vm.hasUserHook then env.userStaticHook methodIdx args
                   else Option.none) with
      | some r =>
        simp only [hus, Option.some.injEq] at hrun
        subst hrun
        cases hu : m.vm.hasUserHook with
        | false =>
          rw [hu] at hus
          simp at hus
        | true =>
          rw [hu] at hus
          simp only [if_true, reduceIte] at hus
          simp [staticStageFor, hb, ha, hu, hus, List.getLast?_concat]
      | none =>
        simp only [hus] at hrun
        have husel : ¬ (m.vm.hasUserHook = true ∧
            (env.userStaticHook methodIdx args).isSome = true) := by
          rintro ⟨hu, hsome⟩
          rw [hu] at hus
          simp only [if_true, reduceIte] at hus
          rw [hus] at hsome
          cases hsome
        by_cases hr : m.vm.hasResolver = true
        · rw [if_pos hr] at hrun
          cases hrun
        · rw [if_neg hr] at hrun
          by_cases hcl : m.vm.hasClassLoader = true
          · rw [if_pos hcl] at hrun
            cases hld : loader (traceLookup m.vm.traceMap (m.vm.pc - 1)) methodIdx
                args m.store m.events with
            | none =>
              simp only [hld] at hrun
              cases hrun
            | some res =>
              obtain ⟨rv, st', ev'⟩ := res
              simp only [hld, Option.some.injEq] at hrun
              subst hrun
              simp [staticStageFor, hb, ha, husel, hcl, List.getLast?_concat]
          · rw [if_neg hcl] at hrun
            simp only [Option.some.injEq] at hrun
            subst hrun
            simp [staticStageFor, hb, ha, husel, hcl, List.getLast?_concat]

theorem executeInvokeVirtual_stage (env : HookEnv) (loader : LoaderK)
    (m m' : Machine) (methodIdx : Nat) (args : List Value)
    (hdec : decodeInvokeArgs m.vm = some (methodIdx, args))
    (hrun : executeInvokeVirtual env loader m = some m') :
    m'.events.getLast? = some (Event.dispatchedVirtual
      (virtualStageFor env m args (traceLookup m.vm.traceMap (m.vm.pc - 1)))) := by
  unfold executeInvokeVirtual at hrun
  simp only [hdec] at hrun
  cases huv : (if m.vm.hasMethodHooks then
      env.userVirtualHook (traceLookup m.vm.traceMap (m.vm.pc - 1))
    else Option.none) with
  | some hook =>
    simp only [huv, Option.some.injEq] at hrun
    subst hrun
    cases hu : m.vm.hasMethodHooks with
    | false =>
      rw [hu] at huv
      simp at huv
    | true =>
      rw [hu] at huv
      simp only [if_true, reduceIte] at huv
      simp [virtualStageFor, hu, huv, List.getLast?_concat]
  | none =>
    simp only [huv] at hrun
    have husel : ¬ (m.vm.hasMethodHooks = true ∧
        (env.userVirtualHook (traceLookup m.vm.traceMap (m.vm.pc - 1))).isSome
          = true) := by
      rintro ⟨hu, hsome⟩
      rw [hu] at huv
      simp only [if_true, reduceIte] at huv
      rw [huv] at hsome
      cases hsome
    cases ha : env.androidVirtualHook (traceLookup m.vm.traceMap (m.vm.pc - 1)) with
    | some hook =>
      simp only [ha, Option.some.injEq] at hrun
      subst hrun
      simp [virtualStageFor, husel, ha, List.getLast?_concat]
    | none =>
      simp only [ha] at hrun
      cases hbv : env.builtinVirtual args (traceLookup m.vm.traceMap (m.vm.pc - 1)) with
      | some rv =>
        simp only [hbv, Option.some.injEq] at hrun
        subst hrun
        simp [virtualStageFor, husel, ha, hbv, List.getLast?_concat]
      | none =>
        simp only [hbv] at hrun
        by_cases hcl : (m.vm.hasClassLoader = true ∧
            ¬ (strHas (traceLookup m.vm.traceMap (m.vm.pc - 1)) "StringBuilder" = true ∨
               strHas (traceLookup m.vm.traceMap (m.vm.pc - 1)) "PrintStream" = true ∨
               strHas (traceLookup m.vm.traceMap (m.vm.pc - 1)) "System" = true) ∧
            strHas (traceLookup m.vm.traceMap (m.vm.pc - 1)) "->" = true)
        · rw [if_pos hcl] at hrun
          cases hld : loader "" methodIdx args m.store m.events with
          | none =>
            simp only [hld] at hrun
            cases hrun
          | some res =>
            obtain ⟨rv, st', ev'⟩ := res
            simp only [hld, Option.some.injEq] at hrun
            subst hrun
            simp [virtualStageFor, husel, ha, hbv, hcl, List.getLast?_concat]
        · rw [if_neg hcl] at hrun
          simp only [Option.some.injEq] at hrun
          subst hrun
          simp only [not_or, Bool.not_eq_true] at hcl
          simp [virtualStageFor, husel, ha, hbv, hcl, List.getLast?_concat]

theorem executeInvokeVirtualRange_stage (env : HookEnv) (loader : LoaderK)
    (m m' : Machine) (methodIdx : Nat) (args : List Value)
    (hdec : decodeInvokeRangeArgs m.vm = some (methodIdx, args))
    (hrun : executeInvokeVirtualRange env loader m = some m') :
    m'.events.getLast? = some (Event.dispatchedVirtual
      (virtualRangeStageFor env m args (traceLookup m.vm.traceMap (m.vm.pc - 1)))) := by
  unfold executeInvokeVirtualRange at hrun
  simp only [hdec] at hrun
  cases hbv : env.builtinVirtual args (traceLookup m.vm.traceMap (m.vm.pc - 1)) with
  | some rv =>
    simp only [hbv, Option.some.injEq] at hrun
    subst hrun
    simp [virtualRangeStageFor, hbv, List.getLast?_concat]
  | none =>
    simp only [hbv] at hrun
    by_cases hcl : m.vm.hasClassLoader = true
    · rw [if_pos hcl] at hrun
      cases hld : loader (traceLookup m.vm.traceMap (m.vm.pc - 1)) methodIdx args
          m.store m.events with
      | none =>
        simp only [hld] at hrun
        cases hrun
      | some res =>
        obtain ⟨rv, st', ev'⟩ := res
        simp only [hld, Option.some.injEq] at hrun
        subst hrun
        simp [virtualRangeStageFor, hbv, hcl, List.getLast?_concat]
    · rw [if_neg hcl] at hrun
      simp only [Option.some.injEq] at hrun
      subst hrun
      simp [virtualRangeStageFor, hbv, hcl, List.getLast?_concat]

theorem executeInvokeStaticRange_stage (env : HookEnv) (loader : LoaderK)
    (m m' : Machine) (methodIdx : Nat) (args : List Value)
    (hdec : decodeInvokeRangeArgs m.vm = some (methodIdx, args))
    (hrun : executeInvokeStaticRange env loader m = some m') :
    m'.events.getLast? = some (Event.dispatchedStatic
      (staticRangeStageFor env m args (traceLookup m.vm.traceMap (m.vm.pc - 1)))) := by
  unfold executeInvokeStaticRange at hrun
  simp only [hdec] at hrun
  cases hbs : env.builtinStatic args (traceLookup m.vm.traceMap (m.vm.pc - 1)) with
  | some rv =>
    simp only [hbs, Option.some.injEq] at hrun
    subst hrun
    simp [staticRangeStageFor, hbs, List.getLast?_concat]
  | none =>
    simp only [hbs] at hrun
    by_cases hcl : m.vm.hasClassLoader = true
    · rw [if_pos hcl] at hrun
      cases hld : loader (traceLookup m.vm.traceMap (m.vm.pc - 1)) methodIdx args
          m.store m.events with
      | none =>
        simp only [hld] at hrun
        cases hrun
      | some res =>
        obtain ⟨rv, st', ev'⟩ := res
        simp only [hld, Option.some.injEq] at hrun
        subst hrun
        simp [staticRangeStageFor, hbs, hcl, List.getLast?_concat]
    · rw [if_neg hcl] at hrun
      simp only [Option.some.injEq] at hrun
      subst hrun
      simp [staticRangeStageFor, hbs, hcl, List.getLast?_concat]

/-- C2 (amended): each invoke handler resolves in its own order, and the
stage actually dispatched is the first matching one of that order:
explicit-register static — built-ins, then the framework table, then the
user hook, then the class loader, else null; explicit-register virtual —
the user hook, then the framework table, then the built-ins, then the
class loader (behind the skip patterns), else null; both range forms —
built-ins, then the class loader, else null, with no framework and no
user stage at all. -/
theorem invoke_dispatch_order_amended :
    (∀ (env : HookEnv) (loader : LoaderK) (m m' : Machine) (methodIdx : Nat)
        (args : List Value),
        decodeInvokeArgs m.vm = some (methodIdx, args) →
        executeInvokeStatic env loader m = some m' →
        m'.events.getLast? = some (Event.dispatchedStatic
          (staticStageFor env m methodIdx args
            (traceLookup m.vm.traceMap (m.vm.pc - 1))))) ∧
    (∀ (env : HookEnv) (loader : LoaderK) (m m' : Machine) (methodIdx : Nat)
        (args : List Value),
        decodeInvokeArgs m.vm = some (methodIdx, args) →
        executeInvokeVirtual env loader m = some m' →
        m'.events.getLast? = some (Event.dispatchedVirtual
          (virtualStageFor env m args
            (traceLookup m.vm.traceMap (m.vm.pc - 1))))) ∧
    (∀ (env : HookEnv) (loader : LoaderK) (m m' : Machine) (methodIdx : Nat)
        (args : List Value),
        decodeInvokeRangeArgs m.vm = some (methodIdx, args) →
        executeInvokeVirtualRange env loader m = some m' →
        m'.events.getLast? = some (Event.dispatchedVirtual
          (virtualRangeStageFor env m args
            (traceLookup m.vm.traceMap (m.vm.pc - 1))))) ∧
    (∀ (env : HookEnv) (loader : LoaderK) (m m' : Machine) (methodIdx : Nat)
        (args : List Value),
        decodeInvokeRangeArgs m.vm = some (methodIdx, args) →
        executeInvokeStaticRange env loader m = some m' →
        m'.events.getLast? = some (Event.dispatchedStatic
          (staticRangeStageFor env m args
            (traceLookup m.vm.traceMap (m.vm.pc - 1))))) :=
  ⟨executeInvokeStatic_stage, executeInvokeVirtual_stage,
   executeInvokeVirtualRange_stage, executeInvokeStaticRange_stage⟩

/-- The amended dispatch-order property at the concrete `c2Env` runs: the
static handler lands on the stage the static order selects (built-in) and
the virtual handler on the stage the virtual order selects (user). -/
theorem invoke_dispatch_order_amended_witness :
    c2MS1.events.getLast? = some (Event.dispatchedStatic
      (staticStageFor c2Env c2MS0 0 []
        (traceLookup c2MS0.vm.traceMap (c2MS0.vm.pc - 1)))) ∧
    c2MV1.events.getLast? = some (Event.dispatchedVirtual
      (virtualStageFor c2Env c2MV0 []
        (traceLookup c2MV0.vm.traceMap (c2MV0.vm.pc - 1)))) := by
  have h := invoke_dispatch_order_amended
  exact ⟨h.1 c2Env (fun _ _ _ _ _ => Option.none) c2MS0 c2MS1 0 [] rfl rfl,
         h.2.1 c2Env (fun _ _ _ _ _ => Option.none) c2MV0 c2MV1 0 [] rfl rfl⟩

end DaliVM
